import Mathlib

/-!
Verification development for the generic status update manager
(`src/status_update_manager/status_update_manager_process.hpp`).

The C++ template `StatusUpdateManagerProcess<IDType, CheckpointType,
UpdateType>` is shallowly embedded here:

* `IDType` (stream ids) and `FrameworkID` are modelled as `Nat`.
* `UpdateType` is modelled by the structure `Update`, which captures the
  three observable properties the core inspects: the (optional) status
  UUID (`update.status().status_uuid()`), the optional framework id
  (`update.framework_id()`), and the terminality of its state
  (`protobuf::isTerminalState(update.status().state())`).
* UUIDs are modelled as `Nat` (the code only compares them for equality
  and stores them in hash sets).
* `CheckpointType` (the checkpoint record protobuf) is modelled by
  `CheckpointRecord`; its `Type` enum by `RecordType`.
* File-system side effects (`os::open`, `protobuf::write`, `os::lseek`,
  `os::ftruncate`, `os::rm`, existence checks) are modelled by explicit
  boolean outcome parameters (`IOEnv`, `RecoverInput`); the durable
  content of a stream's checkpoint file is modelled by the `log` field,
  to which a record is appended exactly when `protobuf::write` succeeds.
* `Try<T>` / `Result<T>` are modelled by `Try α` / `Try (Option α)`.
* The fire-and-forget `forwardCallback` collaborator is modelled by a
  trace: `Manager.forwarded` records every update passed to it, in order.
* `process::Timeout` (a deadline for the retry timer) is modelled by
  `RetryTimeout`, which records the backoff duration the timer was armed
  with; whether the deadline has elapsed when the delayed `timeout`
  message fires is a nondeterministic boolean input of `timeoutOp`.
-/

/-- Result type mirroring stout's `Try<T>` (and, with `Option`, `Result<T>`). -/
inductive Try (α : Type) where
  | ok : α → Try α
  | err : String → Try α
deriving DecidableEq

namespace Try

/-- True iff the result is an error. -/
def isErr {α : Type} : Try α → Bool
  | .ok _ => false
  | .err _ => true

end Try

/-- The observable properties of an `UpdateType` value: `status().status_uuid()`
(optional; `none` models `has_status_uuid() == false`), `framework_id()`
(optional; `none` models `has_framework_id() == false`), and
`protobuf::isTerminalState(status().state())`. -/
structure Update where
  statusUuid : Option Nat
  frameworkId : Option Nat
  terminal : Bool
deriving DecidableEq

/-- The UUID of an update; callers only use this after checking
`statusUuid.isSome` (the code asserts `CHECK_SOME` after `UUID::fromBytes`). -/
def Update.uuidD (u : Update) : Nat := u.statusUuid.getD 0

/-- The `CheckpointType::Type` enum discriminant: `UPDATE` or `ACK`. -/
inductive RecordType where
  | update
  | ack
deriving DecidableEq

/-- A checkpoint record as written by `StatusUpdateStream::handle`: an
`UPDATE` record carries the full update, an `ACK` record carries the UUID of
the acknowledged update (`record.set_uuid(update.status().status_uuid())`). -/
inductive CheckpointRecord where
  | update (u : Update)
  | ack (uuid : Nat)
deriving DecidableEq

/-- The retry timer (`process::Timeout`): we record the backoff duration (in
seconds) that the timer was armed with. -/
structure RetryTimeout where
  duration : Nat
deriving DecidableEq

/-- In-memory (plus durable-log) state of a `StatusUpdateStream`.
`path.isSome` models `checkpointed()`; `log` is the sequence of records
durably written to the checkpoint file. -/
structure StreamState where
  terminated : Bool
  frameworkId : Option Nat
  timeout : Option RetryTimeout
  pending : List Update
  streamId : Nat
  path : Option String
  received : Finset Nat
  acknowledged : Finset Nat
  error : Option String
  log : List CheckpointRecord
deriving DecidableEq

namespace StreamState

/-- `StatusUpdateStream::checkpointed()`: the stream is checkpointed iff it
has a path. -/
def checkpointed (s : StreamState) : Bool := s.path.isSome

/-- `StatusUpdateStream::_handle`: apply an update or acknowledgement to the
in-memory structures, without checkpointing. -/
def handleMem (s : StreamState) (u : Update) (t : RecordType) : StreamState :=
  match t with
  | .update =>
      { s with
        frameworkId := match u.frameworkId with
          | some fid => some fid
          | none => s.frameworkId
        received := insert u.uuidD s.received
        pending := s.pending ++ [u] }
  | .ack =>
      { s with
        acknowledged := insert u.uuidD s.acknowledged
        pending := s.pending.tail
        terminated := s.terminated || u.terminal }

/-- The record written by `StatusUpdateStream::handle` for a given update and
record type. -/
def mkRecord (u : Update) (t : RecordType) : CheckpointRecord :=
  match t with
  | .update => .update u
  | .ack => .ack u.uuidD

/-- `StatusUpdateStream::handle`: checkpoint the record first (if the stream
is checkpointed), then apply the in-memory effect. `writeOk` is the outcome
of `protobuf::write`; on a failed write the sticky `error` is set and nothing
else changes. -/
def handle (s : StreamState) (u : Update) (t : RecordType) (writeOk : Bool) :
    Try Unit × StreamState :=
  if s.checkpointed then
    if writeOk then
      (.ok (), ({ s with log := s.log ++ [mkRecord u t] }).handleMem u t)
    else
      let msg := "Failed to write record for status update"
      (.err msg, { s with error := some msg })
  else
    (.ok (), s.handleMem u t)

/-- `StatusUpdateStream::update`: dedup by UUID against `acknowledged` and
`received`, then handle (checkpointing if necessary). Returns `ok true` if
accepted, `ok false` if a duplicate, an error otherwise. -/
def update (s : StreamState) (u : Update) (writeOk : Bool) :
    Try Bool × StreamState :=
  match s.error with
  | some e => (.err e, s)
  | none =>
    match u.statusUuid with
    | none => (.err "Status update is missing status_uuid", s)
    | some x =>
      if x ∈ s.acknowledged then (.ok false, s)
      else if x ∈ s.received then (.ok false, s)
      else
        match s.handle u .update writeOk with
        | (.ok _, s') => (.ok true, s')
        | (.err e, s') => (.err e, s')

/-- `StatusUpdateStream::next`: the head of `pending`, or the sticky error. -/
def next (s : StreamState) : Try (Option Update) :=
  match s.error with
  | some e => .err e
  | none => .ok s.pending.head?

/-- `StatusUpdateStream::acknowledgement`: the ACK must match the UUID at the
head of `pending`; empty `pending` is an error, an already-acknowledged or
mismatched UUID is reported as a duplicate (`ok false`) without mutating
state. -/
def acknowledgement (s : StreamState) (statusUuid : Nat) (writeOk : Bool) :
    Try Bool × StreamState :=
  match s.error with
  | some e => (.err e, s)
  | none =>
    match s.pending with
    | [] => (.err "Unexpected status update acknowledgment for stream", s)
    | u :: _ =>
      if statusUuid ∈ s.acknowledged then (.ok false, s)
      else if statusUuid ≠ u.uuidD then (.ok false, s)
      else
        match s.handle u .ack writeOk with
        | (.ok _, s') => (.ok true, s')
        | (.err e, s') => (.err e, s')

end StreamState

/-- Outcomes of the file-system calls made on behalf of a single manager
operation: `protobuf::write` (checkpointing), and the `os::exists`,
`os::mkdir` and `os::open` calls made by `StatusUpdateStream::create`. -/
structure IOEnv where
  writeOk : Bool
  pathExists : Bool
  mkdirOk : Bool
  openOk : Bool
deriving DecidableEq

/-- A freshly constructed stream (the private `StatusUpdateStream`
constructor followed by `stream->frameworkId = frameworkId`). -/
def StreamState.init (sid : Nat) (fid : Option Nat) (path : Option String) :
    StreamState :=
  { terminated := false
    frameworkId := fid
    timeout := none
    pending := []
    streamId := sid
    path := path
    received := ∅
    acknowledged := ∅
    error := none
    log := [] }

/-- `StatusUpdateStream::create`: for a checkpointed stream the file must not
already exist, the parent directory is created, and the file is opened for
synchronous append; any of these failing is an error and no stream is
produced. -/
def StreamState.create (sid : Nat) (fid : Option Nat) (path : Option String)
    (env : IOEnv) : Try StreamState :=
  match path with
  | some p =>
      if env.pathExists then
        .err "The status updates file already exists."
      else if !env.mkdirOk then
        .err "Failed to create the base updates directory"
      else if !env.openOk then
        .err "Failed to open the file for status updates"
      else
        .ok (StreamState.init sid fid (some p))
  | none => .ok (StreamState.init sid fid none)

/-- Lookup in an association list (models `hashmap` lookup; keys are stream or
framework ids). -/
def lookupA {α : Type} : List (Nat × α) → Nat → Option α
  | [], _ => none
  | (k, v) :: rest, x => if k = x then some v else lookupA rest x

/-- Insert-or-replace in an association list (models `hashmap` assignment). -/
def insertA {α : Type} : List (Nat × α) → Nat → α → List (Nat × α)
  | [], x, v => [(x, v)]
  | (k, w) :: rest, x, v =>
      if k = x then (x, v) :: rest else (k, w) :: insertA rest x v

/-- Remove a key from an association list (models `hashmap::erase`). -/
def eraseA {α : Type} : List (Nat × α) → Nat → List (Nat × α)
  | [], _ => []
  | (k, v) :: rest, x =>
      if k = x then eraseA rest x else (k, v) :: eraseA rest x

/-- `frameworkStreams[frameworkId].insert(streamId)`: hash-set insertion into
the reverse index (the per-framework set is modelled as a duplicate-free
list). -/
def fsInsert (l : List (Nat × List Nat)) (fid sid : Nat) : List (Nat × List Nat) :=
  match lookupA l fid with
  | some ids => insertA l fid (if sid ∈ ids then ids else ids ++ [sid])
  | none => insertA l fid [sid]

/-- `frameworkStreams[frameworkId].erase(streamId)` followed by erasing the
framework key if its set became empty (`cleanupStatusUpdateStream`). -/
def fsErase (l : List (Nat × List Nat)) (fid sid : Nat) : List (Nat × List Nat) :=
  match lookupA l fid with
  | some ids =>
      let ids' := ids.filter (fun x => x ≠ sid)
      if ids' = [] then eraseA l fid else insertA l fid ids'
  | none => l

/-- Modelled from the spec: `slave::STATUS_UPDATE_RETRY_INTERVAL_MIN` lives in
`slave/constants.hpp`, which is not part of this repository slice; the spec
suggests 10 seconds. -/
def RETRY_INTERVAL_MIN : Nat := 10

/-- Modelled from the spec: `slave::STATUS_UPDATE_RETRY_INTERVAL_MAX` lives in
`slave/constants.hpp`, which is not part of this repository slice; the spec
suggests 10 minutes (600 seconds). -/
def RETRY_INTERVAL_MAX : Nat := 600

/-- The `getPath` injected collaborator (a pure function of the stream id). -/
def getPath (sid : Nat) : String := toString sid

/-- State of a `StatusUpdateManagerProcess`: the stream registry, the
framework reverse index, the `paused` flag, and the trace of updates handed
to `forwardCallback` (in order). -/
structure Manager where
  streams : List (Nat × StreamState)
  frameworkStreams : List (Nat × List Nat)
  paused : Bool
  forwarded : List Update
deriving DecidableEq

namespace Manager

/-- A freshly constructed manager (no streams, not paused). -/
def empty : Manager :=
  { streams := [], frameworkStreams := [], paused := false, forwarded := [] }

/-- `StatusUpdateManagerProcess::forward`: invoke the forward callback on the
update and arm a retry timer with the given backoff duration. Returns the
manager with the extended forward trace together with the armed timeout. -/
def forward (m : Manager) (u : Update) (duration : Nat) :
    Manager × RetryTimeout :=
  ({ m with forwarded := m.forwarded ++ [u] }, { duration := duration })

/-- `StatusUpdateManagerProcess::createStatusUpdateStream`: create the stream
(checkpoint file included if requested), register it in `streams`, and index
it in `frameworkStreams` when it has a framework id. -/
def createStream (m : Manager) (sid : Nat) (fid : Option Nat)
    (checkpoint : Bool) (env : IOEnv) : Try Unit × Manager :=
  match StreamState.create sid fid
      (if checkpoint then some (getPath sid) else none) env with
  | .err e => (.err e, m)
  | .ok s =>
      (.ok (),
       { m with
         streams := insertA m.streams sid s
         frameworkStreams :=
           match fid with
           | some f => fsInsert m.frameworkStreams f sid
           | none => m.frameworkStreams })

/-- The part of `StatusUpdateManagerProcess::update` that runs once the
stream `s` has been located (or just created) under `sid`: validate the
checkpoint flag and framework id, delegate to the stream, and arm the first
forward when a non-duplicate update put the stream's pending queue at size
one and the manager is not paused. -/
def updateGo (m₁ : Manager) (u : Update) (sid : Nat) (checkpoint : Bool)
    (env : IOEnv) (s : StreamState) : Try Unit × Manager :=
  if s.checkpointed ≠ checkpoint then
    (.err "Mismatched checkpoint value for status update", m₁)
  else if u.frameworkId.isSome ≠ s.frameworkId.isSome then
    (.err "Mismatched framework ID for status update", m₁)
  else if u.frameworkId.isSome ∧ u.frameworkId ≠ s.frameworkId then
    (.err "Mismatched framework ID for status update", m₁)
  else
    match s.update u env.writeOk with
    | (.err e, s') =>
        (.err e, { m₁ with streams := insertA m₁.streams sid s' })
    | (.ok false, s') =>
        (.ok (), { m₁ with streams := insertA m₁.streams sid s' })
    | (.ok true, s') =>
        let m₂ := { m₁ with streams := insertA m₁.streams sid s' }
        if ¬m₂.paused ∧ s'.pending.length = 1 then
          match s'.next with
          | .err e => (.err e, m₂)
          | .ok none => (.ok (), m₂)
          | .ok (some nxt) =>
              let (m₃, t) := m₂.forward nxt RETRY_INTERVAL_MIN
              (.ok (),
               { m₃ with
                 streams := insertA m₃.streams sid
                   { s' with timeout := some t } })
        else (.ok (), m₂)

/-- `StatusUpdateManagerProcess::update`: lazily create the stream if absent,
then proceed with validation, delegation and arming (`updateGo`). -/
def update (m : Manager) (u : Update) (sid : Nat) (checkpoint : Bool)
    (env : IOEnv) : Try Unit × Manager :=
  match lookupA m.streams sid with
  | some s => m.updateGo u sid checkpoint env s
  | none =>
    match createStream m sid u.frameworkId checkpoint env with
    | (.err e, _) => (.err e, m)
    | (.ok _, m₁) =>
      match lookupA m₁.streams sid with
      | none => (.err "stream not found after creation", m₁)
      | some s => m₁.updateGo u sid checkpoint env s

/-- `StatusUpdateManagerProcess::cleanupStatusUpdateStream`: drop the stream
from `streams` and, when it has a framework id, from `frameworkStreams`. -/
def cleanupStream (m : Manager) (sid : Nat) : Manager :=
  match lookupA m.streams sid with
  | none => m
  | some s =>
      let m₁ :=
        match s.frameworkId with
        | some fid => { m with frameworkStreams := fsErase m.frameworkStreams fid sid }
        | none => m
      { m₁ with streams := eraseA m₁.streams sid }

/-- `StatusUpdateManagerProcess::acknowledgement`: delegate to the stream; a
terminal acknowledgement removes the stream and returns `false`, otherwise
the next pending head (if any, and not paused) is forwarded at the minimum
retry interval and the call returns `true`. -/
def acknowledgement (m : Manager) (sid : Nat) (uuid : Nat) (env : IOEnv) :
    Try Bool × Manager :=
  match lookupA m.streams sid with
  | none => (.err ("Cannot find the status update stream " ++ toString sid), m)
  | some s =>
    match s.acknowledgement uuid env.writeOk with
    | (.err e, s₁) =>
        (.err e, { m with streams := insertA m.streams sid s₁ })
    | (.ok false, s₁) =>
        (.err "Duplicate status update acknowledgement",
         { m with streams := insertA m.streams sid s₁ })
    | (.ok true, s₁) =>
        let s₂ := { s₁ with timeout := none }
        let m₁ := { m with streams := insertA m.streams sid s₂ }
        if s₂.terminated then
          (.ok false, m₁.cleanupStream sid)
        else
          match s₂.pending.head? with
          | some nxt =>
              if ¬m₁.paused then
                let (m₂, t) := m₁.forward nxt RETRY_INTERVAL_MIN
                (.ok true,
                 { m₂ with
                   streams := insertA m₂.streams sid
                     { s₂ with timeout := some t } })
              else (.ok true, m₁)
          | none => (.ok true, m₁)

/-- `StatusUpdateManagerProcess::pause`: set the flag; timers are not
touched. -/
def pause (m : Manager) : Manager := { m with paused := true }

/-- The loop body of `StatusUpdateManagerProcess::resume`: walk the streams
and re-arm a forward (at the minimum retry interval) for every stream whose
`next()` returns an update. -/
def resumeGo : List (Nat × StreamState) → Manager → Manager
  | [], acc => acc
  | (sid, s) :: rest, acc =>
      match s.next with
      | .ok (some u) =>
          let (acc', t) := acc.forward u RETRY_INTERVAL_MIN
          resumeGo rest
            { acc' with
              streams := insertA acc'.streams sid { s with timeout := some t } }
      | _ => resumeGo rest acc

/-- `StatusUpdateManagerProcess::resume`: clear the flag and re-arm forwards
for every stream with a pending head. -/
def resume (m : Manager) : Manager :=
  resumeGo m.streams { m with paused := false }

/-- `StatusUpdateManagerProcess::cleanup`: drop every stream of the given
framework. -/
def cleanup (m : Manager) (fid : Nat) : Manager :=
  match lookupA m.frameworkStreams fid with
  | none => m
  | some ids => ids.foldl cleanupStream m

/-- `StatusUpdateManagerProcess::timeout`: the delayed retry message. If the
manager is unpaused, the stream still exists, its pending queue is non-empty
and the armed deadline has elapsed (`expired`, a nondeterministic input
standing for `stream->timeout->expired()`), re-forward the head with the
doubled-and-capped backoff. The code asserts `CHECK_SOME(stream->timeout)`
when pending is non-empty; the model guards on it. -/
def timeoutOp (m : Manager) (sid : Nat) (duration : Nat) (expired : Bool) :
    Manager :=
  if m.paused then m
  else
    match lookupA m.streams sid with
    | none => m
    | some s =>
      if s.pending ≠ [] then
        match s.timeout with
        | none => m
        | some _ =>
          if expired then
            match s.pending.head? with
            | none => m
            | some u =>
                let d := min (duration * 2) RETRY_INTERVAL_MAX
                let (m₁, t) := m.forward u d
                { m₁ with
                  streams := insertA m₁.streams sid { s with timeout := some t } }
          else m
      else m

end Manager

/-- The per-stream state returned by recovery (`StatusUpdateStream::State`):
the full list of replayed updates, whether a non-strict read error was
tolerated, and whether a terminal update was acknowledged. -/
structure StreamRecoveredState where
  updates : List Update
  error : Bool
  terminated : Bool
deriving DecidableEq

/-- Outcomes of the file-system interaction during
`StatusUpdateStream::recover`: existence of the checkpoint file and its
parent directory, the `os::open` outcome, the successfully readable records
of the file (`records`) followed by how reading ended (`readErr = none` for a
clean end of file or tolerated torn tail, `some msg` for a read error), and
the `os::lseek` / `os::ftruncate` / `os::rm` outcomes. -/
structure RecoverInput where
  dirExists : Bool
  fileExists : Bool
  openOk : Bool
  records : List CheckpointRecord
  readErr : Option String
  lseekOk : Bool
  truncOk : Bool
  rmOk : Bool
deriving DecidableEq

/-- One iteration of the replay loop in `StatusUpdateStream::recover`: an
`UPDATE` record is applied in memory and appended to the returned state's
update list; an `ACK` record acknowledges the current pending head, and
finding no pending head is a hard error. -/
def replayStep (s : StreamState) (acc : List Update) (r : CheckpointRecord) :
    Try (StreamState × List Update) :=
  match r with
  | .update u => .ok (s.handleMem u .update, acc ++ [u])
  | .ack _ =>
      match s.next with
      | .err e => .err e
      | .ok none => .err "Unexpected status update acknowledgment for stream"
      | .ok (some u) => .ok (s.handleMem u .ack, acc)

/-- The replay loop of `StatusUpdateStream::recover` over the readable
records. -/
def replayRecords (s : StreamState) (acc : List Update) :
    List CheckpointRecord → Try (StreamState × List Update)
  | [] => .ok (s, acc)
  | r :: rs =>
      match replayStep s acc r with
      | .err e => .err e
      | .ok (s', acc') => replayRecords s' acc' rs

/-- Result of `StatusUpdateStream::recover`: `none` when there is nothing to
resume, otherwise the rebuilt stream and its recovered state; `fileRemoved`
records whether `os::rm` was performed on the checkpoint file. -/
structure RecoverResult where
  result : Option (StreamState × StreamRecoveredState)
  fileRemoved : Bool
deriving DecidableEq

/-- The tail of `StatusUpdateStream::recover` after the replay loop and the
truncation: build the recovered state, and if no update was replayed remove
the file and return `none`. -/
def finishRecover (s : StreamState) (upds : List Update) (errFlag : Bool)
    (input : RecoverInput) : Try RecoverResult :=
  if upds = [] then
    if !input.rmOk then .err "Failed to remove status updates file"
    else .ok ⟨none, true⟩
  else
    .ok ⟨some (s, { updates := upds, error := errFlag,
                    terminated := s.terminated }), false⟩

/-- `StatusUpdateStream::recover`: replay the checkpoint file, truncate it to
the last valid offset, handle a mid-stream read error according to `strict`,
and remove the file when no update was ever successfully checkpointed. -/
def StreamState.recover (sid : Nat) (path : String) (strict : Bool)
    (input : RecoverInput) : Try RecoverResult :=
  if input.dirExists ∧ ¬input.fileExists then .ok ⟨none, false⟩
  else if !input.openOk then .err "Failed to open status updates stream file"
  else
    match replayRecords (StreamState.init sid none (some path)) []
        input.records with
    | .err e => .err e
    | .ok (s, upds) =>
      if !input.lseekOk then .err "Failed to lseek status updates stream file"
      else if !input.truncOk then .err "Failed to truncate status updates file"
      else
        match input.readErr with
        | some msg =>
            if strict then .err msg
            else finishRecover s upds true input
        | none => finishRecover s upds false input

/-- `StatusUpdateManagerProcess::recoverStatusUpdateStream`: recover the
stream; a recovered stream whose replay acknowledged a terminal update is
returned to the caller but not registered anywhere; otherwise it is indexed,
its pending head (if any, and not paused) is forwarded, and it is added to
`streams`. -/
def Manager.recoverStream (m : Manager) (sid : Nat) (strict : Bool)
    (input : RecoverInput) : Try (Option StreamRecoveredState) × Manager :=
  match StreamState.recover sid (getPath sid) strict input with
  | .err e => (.err e, m)
  | .ok ⟨none, _⟩ => (.ok none, m)
  | .ok ⟨some (s, st), _⟩ =>
      if s.terminated then (.ok (some st), m)
      else
        let m₁ :=
          { m with
            frameworkStreams :=
              match s.frameworkId with
              | some f => fsInsert m.frameworkStreams f sid
              | none => m.frameworkStreams }
        match s.next with
        | .err e => (.err e, m₁)
        | .ok nxt =>
          if ¬m₁.paused ∧ nxt.isSome then
            match nxt with
            | some u =>
                let (m₂, t) := m₁.forward u RETRY_INTERVAL_MIN
                (.ok (some st),
                 { m₂ with
                   streams := insertA m₂.streams sid
                     { s with timeout := some t } })
            | none => (.ok (some st), { m₁ with streams := insertA m₁.streams sid s })
          else (.ok (some st), { m₁ with streams := insertA m₁.streams sid s })

/-- A stream-level operation together with the outcome of its checkpoint
write: `StatusUpdateStream::update` or `StatusUpdateStream::acknowledgement`. -/
inductive StreamOp where
  | upd (u : Update) (writeOk : Bool)
  | ack (uuid : Nat) (writeOk : Bool)

/-- Apply one stream-level operation, keeping the resulting state. -/
def StreamState.applyOp (s : StreamState) (op : StreamOp) : StreamState :=
  match op with
  | .upd u w => (s.update u w).2
  | .ack x w => (s.acknowledgement x w).2

/-- Run a sequence of stream-level operations. -/
def StreamState.runOps (s : StreamState) (ops : List StreamOp) : StreamState :=
  ops.foldl StreamState.applyOp s

/-- Manager states reachable from the fresh manager through the public
operations (with arbitrary inputs and file-system outcomes). -/
inductive Reachable : Manager → Prop where
  | empty : Reachable Manager.empty
  | update {m : Manager} (u : Update) (sid : Nat) (cp : Bool) (env : IOEnv) :
      Reachable m → Reachable (m.update u sid cp env).2
  | ack {m : Manager} (sid uuid : Nat) (env : IOEnv) :
      Reachable m → Reachable (m.acknowledgement sid uuid env).2
  | pause {m : Manager} : Reachable m → Reachable m.pause
  | resume {m : Manager} : Reachable m → Reachable m.resume
  | cleanup {m : Manager} (fid : Nat) : Reachable m → Reachable (m.cleanup fid)
  | timerFire {m : Manager} (sid d : Nat) (expired : Bool) :
      Reachable m → Reachable (m.timeoutOp sid d expired)
  | recoverStep {m : Manager} (sid : Nat) (strict : Bool) (input : RecoverInput) :
      Reachable m → Reachable (m.recoverStream sid strict input).2

theorem lookupA_insertA {α : Type} (l : List (Nat × α)) (k x : Nat) (v : α) :
    lookupA (insertA l k v) x = if k = x then some v else lookupA l x := by
  induction l with
  | nil => simp [insertA, lookupA]
  | cons p rest ih =>
    obtain ⟨k', v'⟩ := p
    by_cases h : k' = k
    · subst h
      simp only [insertA, if_pos rfl, lookupA]
      by_cases hx : k' = x <;> simp [hx]
    · simp only [insertA, if_neg h, lookupA]
      by_cases hx : k' = x
      · subst hx
        have hkx : ¬k = k' := fun hh => h hh.symm
        simp [hkx]
      · simp [hx, ih]

theorem lookupA_eraseA {α : Type} (l : List (Nat × α)) (k x : Nat) :
    lookupA (eraseA l k) x = if k = x then none else lookupA l x := by
  induction l with
  | nil => simp [eraseA, lookupA]
  | cons p rest ih =>
    obtain ⟨k', v'⟩ := p
    by_cases h : k' = k
    · subst h
      rw [show eraseA ((k', v') :: rest) k' = eraseA rest k' by simp [eraseA]]
      by_cases hx : k' = x
      · subst hx
        simpa using ih
      · simp only [lookupA, if_neg hx]
        rw [ih, if_neg hx]
    · rw [show eraseA ((k', v') :: rest) k = (k', v') :: eraseA rest k by
        simp [eraseA, h]]
      by_cases hx : k' = x
      · subst hx
        have hkx : ¬k = k' := fun hh => h hh.symm
        simp [lookupA, hkx]
      · simp only [lookupA, if_neg hx]
        exact ih

theorem insertA_self {α : Type} (l : List (Nat × α)) (k : Nat) (v : α)
    (h : lookupA l k = some v) : insertA l k v = l := by
  induction l with
  | nil => simp [lookupA] at h
  | cons p rest ih =>
    obtain ⟨k', v'⟩ := p
    by_cases hk : k' = k
    · subst hk
      simp [lookupA] at h
      simp [insertA, h]
    · simp [lookupA, hk] at h
      simp [insertA, hk, ih h]

theorem lookupA_mem {α : Type} {l : List (Nat × α)} {x : Nat} {v : α}
    (h : lookupA l x = some v) : (x, v) ∈ l := by
  induction l with
  | nil => simp [lookupA] at h
  | cons p rest ih =>
    obtain ⟨k', v'⟩ := p
    by_cases hk : k' = x
    · subst hk
      simp [lookupA] at h
      simp [h]
    · simp [lookupA, hk] at h
      exact List.mem_cons_of_mem _ (ih h)

theorem mem_keys_insertA {α : Type} {l : List (Nat × α)} {k x : Nat} {v : α}
    (h : x ∈ (insertA l k v).map Prod.fst) :
    x ∈ l.map Prod.fst ∨ x = k := by
  induction l with
  | nil =>
    simp [insertA] at h
    right; exact h
  | cons p rest ih =>
    obtain ⟨k', v'⟩ := p
    by_cases hk : k' = k
    · subst hk
      rw [show insertA ((k', v') :: rest) k' v = (k', v) :: rest by
        simp [insertA]] at h
      simp only [List.map_cons, List.mem_cons] at h ⊢
      rcases h with h | h
      · right; exact h
      · left; right; exact h
    · rw [show insertA ((k', v') :: rest) k v = (k', v') :: insertA rest k v by
        simp [insertA, hk]] at h
      simp only [List.map_cons, List.mem_cons] at h ⊢
      rcases h with h | h
      · left; left; exact h
      · rcases ih h with h' | h'
        · left; right; exact h'
        · right; exact h'

theorem mem_keys_eraseA {α : Type} {l : List (Nat × α)} {k x : Nat}
    (h : x ∈ (eraseA l k).map Prod.fst) : x ∈ l.map Prod.fst := by
  induction l with
  | nil => simp [eraseA] at h
  | cons p rest ih =>
    obtain ⟨k', v'⟩ := p
    by_cases hk : k' = k
    · subst hk
      rw [show eraseA ((k', v') :: rest) k' = eraseA rest k' by simp [eraseA]]
        at h
      simp only [List.map_cons, List.mem_cons]
      right; exact ih h
    · rw [show eraseA ((k', v') :: rest) k = (k', v') :: eraseA rest k by
        simp [eraseA, hk]] at h
      simp only [List.map_cons, List.mem_cons] at h ⊢
      rcases h with h | h
      · left; exact h
      · right; exact ih h

theorem keysNodup_insertA {α : Type} {l : List (Nat × α)} (k : Nat) (v : α)
    (h : (l.map Prod.fst).Nodup) : ((insertA l k v).map Prod.fst).Nodup := by
  induction l with
  | nil => simp [insertA]
  | cons p rest ih =>
    obtain ⟨k', v'⟩ := p
    simp only [List.map_cons, List.nodup_cons] at h
    by_cases hk : k' = k
    · subst hk
      rw [show insertA ((k', v') :: rest) k' v = (k', v) :: rest by
        simp [insertA]]
      simp only [List.map_cons, List.nodup_cons]
      exact h
    · rw [show insertA ((k', v') :: rest) k v = (k', v') :: insertA rest k v by
        simp [insertA, hk]]
      simp only [List.map_cons, List.nodup_cons]
      refine ⟨fun hx => ?_, ih h.2⟩
      rcases mem_keys_insertA hx with h' | h'
      · exact h.1 h'
      · exact hk h'

theorem keysNodup_eraseA {α : Type} {l : List (Nat × α)} (k : Nat)
    (h : (l.map Prod.fst).Nodup) : ((eraseA l k).map Prod.fst).Nodup := by
  induction l with
  | nil => simp [eraseA]
  | cons p rest ih =>
    obtain ⟨k', v'⟩ := p
    simp only [List.map_cons, List.nodup_cons] at h
    by_cases hk : k' = k
    · subst hk
      rw [show eraseA ((k', v') :: rest) k' = eraseA rest k' by simp [eraseA]]
      exact ih h.2
    · rw [show eraseA ((k', v') :: rest) k = (k', v') :: eraseA rest k by
        simp [eraseA, hk]]
      simp only [List.map_cons, List.nodup_cons]
      exact ⟨fun hx => h.1 (mem_keys_eraseA hx), ih h.2⟩

namespace StreamState

theorem update_sticky (s : StreamState) (u : Update) (w : Bool) (e : String)
    (h : s.error = some e) : s.update u w = (.err e, s) := by
  simp [update, h]

theorem acknowledgement_sticky (s : StreamState) (x : Nat) (w : Bool)
    (e : String) (h : s.error = some e) :
    s.acknowledgement x w = (.err e, s) := by
  simp [acknowledgement, h]

theorem next_sticky (s : StreamState) (e : String) (h : s.error = some e) :
    s.next = .err e := by
  simp [next, h]

theorem handle_fields (s : StreamState) (u : Update) (t : RecordType)
    (w : Bool) :
    (s.handle u t w).2.path = s.path ∧ (s.handle u t w).2.timeout = s.timeout ∧
      (s.handle u t w).2.streamId = s.streamId := by
  unfold handle
  split
  · split
    · cases t <;> simp [handleMem]
    · simp
  · cases t <;> simp [handleMem]

theorem update_snd (s : StreamState) (u : Update) (w : Bool) :
    (s.update u w).2 = s ∨ (s.update u w).2 = (s.handle u .update w).2 := by
  unfold update
  rcases s.error with _ | e
  · rcases u.statusUuid with _ | x
    · left; rfl
    · by_cases hA : x ∈ s.acknowledged
      · simp [hA]
      · by_cases hR : x ∈ s.received
        · simp [hA, hR]
        · simp only [hA, hR, if_neg, if_false]
          rcases hh : s.handle u .update w with ⟨r, s'⟩
          cases r <;> simp [hh]
  · left; rfl

theorem acknowledgement_snd (s : StreamState) (x : Nat) (w : Bool) :
    (s.acknowledgement x w).2 = s ∨
      ∃ u r, s.pending = u :: r ∧
        (s.acknowledgement x w).2 = (s.handle u .ack w).2 := by
  rcases hE : s.error with _ | e
  · rcases hp : s.pending with _ | ⟨u, r⟩
    · left
      simp [acknowledgement, hE, hp]
    · by_cases hA : x ∈ s.acknowledged
      · left
        simp [acknowledgement, hE, hp, hA]
      · by_cases hx : x = u.uuidD
        · right
          subst hx
          refine ⟨u, r, ?_, ?_⟩
          · simp [hp]
          · simp only [acknowledgement, hE, hp, hA, ite_false, ne_eq,
              not_true_eq_false, if_false, if_neg, not_false_eq_true, ite_true]
            rcases hh : s.handle u .ack w with ⟨r', s'⟩
            cases r' <;> rfl
        · left
          simp [acknowledgement, hE, hp, hA, hx]
  · left
    rw [acknowledgement_sticky s x w e hE]

theorem update_path (s : StreamState) (u : Update) (w : Bool) :
    (s.update u w).2.path = s.path := by
  rcases update_snd s u w with h | h
  · rw [h]
  · rw [h]; exact (handle_fields s u .update w).1

theorem update_timeout (s : StreamState) (u : Update) (w : Bool) :
    (s.update u w).2.timeout = s.timeout := by
  rcases update_snd s u w with h | h
  · rw [h]
  · rw [h]; exact (handle_fields s u .update w).2.1

theorem update_streamId (s : StreamState) (u : Update) (w : Bool) :
    (s.update u w).2.streamId = s.streamId := by
  rcases update_snd s u w with h | h
  · rw [h]
  · rw [h]; exact (handle_fields s u .update w).2.2

theorem acknowledgement_timeout (s : StreamState) (x : Nat) (w : Bool) :
    (s.acknowledgement x w).2.timeout = s.timeout := by
  rcases acknowledgement_snd s x w with h | ⟨u, r, _, h⟩
  · rw [h]
  · rw [h]; exact (handle_fields s u .ack w).2.1

theorem acknowledgement_path (s : StreamState) (x : Nat) (w : Bool) :
    (s.acknowledgement x w).2.path = s.path := by
  rcases acknowledgement_snd s x w with h | ⟨u, r, _, h⟩
  · rw [h]
  · rw [h]; exact (handle_fields s u .ack w).1

/-- The sticky error message recorded on a failed checkpoint write. -/
def writeFailMsg : String := "Failed to write record for status update"

theorem handle_write_fail (s : StreamState) (u : Update) (t : RecordType)
    (hC : s.checkpointed = true) :
    s.handle u t false = (.err writeFailMsg, { s with error := some writeFailMsg }) := by
  simp [StreamState.handle, hC, writeFailMsg]

theorem handle_write_ok (s : StreamState) (u : Update) (t : RecordType)
    (hC : s.checkpointed = true) :
    s.handle u t true =
      (.ok (), ({ s with log := s.log ++ [StreamState.mkRecord u t] }).handleMem u t) := by
  simp [StreamState.handle, hC]

theorem handle_nocp (s : StreamState) (u : Update) (t : RecordType) (w : Bool)
    (hC : s.checkpointed = false) :
    s.handle u t w = (.ok (), s.handleMem u t) := by
  simp [StreamState.handle, hC]


theorem update_missing (s : StreamState) (u : Update) (w : Bool)
    (hE : s.error = none) (hU : u.statusUuid = none) :
    s.update u w = (.err "Status update is missing status_uuid", s) := by
  simp [update, hE, hU]

theorem update_dup (s : StreamState) (u : Update) (w : Bool) (x : Nat)
    (hE : s.error = none) (hU : u.statusUuid = some x)
    (hd : x ∈ s.acknowledged ∨ x ∈ s.received) :
    s.update u w = (.ok false, s) := by
  rcases hd with hd | hd
  · simp [update, hE, hU, hd]
  · by_cases hA : x ∈ s.acknowledged <;> simp [update, hE, hU, hA, hd]

theorem update_accept_nocp (s : StreamState) (u : Update) (w : Bool) (x : Nat)
    (hE : s.error = none) (hU : u.statusUuid = some x)
    (hA : x ∉ s.acknowledged) (hR : x ∉ s.received)
    (hC : s.checkpointed = false) :
    s.update u w = (.ok true, s.handleMem u .update) := by
  simp [update, hE, hU, hA, hR, handle_nocp s u .update w hC]

theorem update_accept_cp (s : StreamState) (u : Update) (x : Nat)
    (hE : s.error = none) (hU : u.statusUuid = some x)
    (hA : x ∉ s.acknowledged) (hR : x ∉ s.received)
    (hC : s.checkpointed = true) :
    s.update u true =
      (.ok true,
        ({ s with log := s.log ++ [mkRecord u .update] }).handleMem u .update) := by
  simp [update, hE, hU, hA, hR, handle_write_ok s u .update hC]

theorem update_write_fail (s : StreamState) (u : Update) (x : Nat)
    (hE : s.error = none) (hU : u.statusUuid = some x)
    (hA : x ∉ s.acknowledged) (hR : x ∉ s.received)
    (hC : s.checkpointed = true) :
    s.update u false =
      (.err writeFailMsg, { s with error := some writeFailMsg }) := by
  simp [update, hE, hU, hA, hR, handle_write_fail s u .update hC]

theorem ack_empty (s : StreamState) (x : Nat) (w : Bool)
    (hE : s.error = none) (hp : s.pending = []) :
    s.acknowledgement x w =
      (.err "Unexpected status update acknowledgment for stream", s) := by
  simp [acknowledgement, hE, hp]

theorem ack_dup (s : StreamState) (x : Nat) (w : Bool) (u : Update)
    (r : List Update) (hE : s.error = none) (hp : s.pending = u :: r)
    (hA : x ∈ s.acknowledged) :
    s.acknowledgement x w = (.ok false, s) := by
  simp [acknowledgement, hE, hp, hA]

theorem ack_mismatch (s : StreamState) (x : Nat) (w : Bool) (u : Update)
    (r : List Update) (hE : s.error = none) (hp : s.pending = u :: r)
    (hA : x ∉ s.acknowledged) (hx : x ≠ u.uuidD) :
    s.acknowledgement x w = (.ok false, s) := by
  simp [acknowledgement, hE, hp, hA, hx]

theorem ack_accept_nocp (s : StreamState) (w : Bool) (u : Update)
    (r : List Update) (hE : s.error = none) (hp : s.pending = u :: r)
    (hA : u.uuidD ∉ s.acknowledged) (hC : s.checkpointed = false) :
    s.acknowledgement u.uuidD w = (.ok true, s.handleMem u .ack) := by
  simp [acknowledgement, hE, hp, hA, handle_nocp s u .ack w hC]

theorem ack_accept_cp (s : StreamState) (u : Update) (r : List Update)
    (hE : s.error = none) (hp : s.pending = u :: r)
    (hA : u.uuidD ∉ s.acknowledged) (hC : s.checkpointed = true) :
    s.acknowledgement u.uuidD true =
      (.ok true, ({ s with log := s.log ++ [mkRecord u .ack] }).handleMem u .ack) := by
  simp [acknowledgement, hE, hp, hA, handle_write_ok s u .ack hC]

theorem ack_write_fail (s : StreamState) (u : Update) (r : List Update)
    (hE : s.error = none) (hp : s.pending = u :: r)
    (hA : u.uuidD ∉ s.acknowledged) (hC : s.checkpointed = true) :
    s.acknowledgement u.uuidD false =
      (.err writeFailMsg, { s with error := some writeFailMsg }) := by
  simp [acknowledgement, hE, hp, hA, handle_write_fail s u .ack hC]

end StreamState

theorem Update.uuidD_eq {u : Update} {x : Nat} (h : u.statusUuid = some x) :
    u.uuidD = x := by
  simp [Update.uuidD, h]

namespace StreamState

theorem update_not_acc (s : StreamState) (u : Update) (w : Bool)
    (h : (s.update u w).1 ≠ .ok true) :
    (s.update u w).2.pending = s.pending ∧
      (s.update u w).2.timeout = s.timeout ∧
      ((s.update u w).2.error = none → (s.update u w).2 = s) := by
  rcases hE : s.error with _ | e
  · rcases hU : u.statusUuid with _ | x
    · rw [update_missing s u w hE hU]
      exact ⟨rfl, rfl, fun _ => rfl⟩
    · by_cases hd : x ∈ s.acknowledged ∨ x ∈ s.received
      · rw [update_dup s u w x hE hU hd]
        exact ⟨rfl, rfl, fun _ => rfl⟩
      · push_neg at hd
        cases hC : s.checkpointed
        · rw [update_accept_nocp s u w x hE hU hd.1 hd.2 hC] at h
          exact absurd rfl h
        · cases w
          · rw [update_write_fail s u x hE hU hd.1 hd.2 hC]
            refine ⟨rfl, rfl, fun hco => ?_⟩
            simp at hco
          · rw [update_accept_cp s u x hE hU hd.1 hd.2 hC] at h
            exact absurd rfl h
  · rw [update_sticky s u w e hE]
    exact ⟨rfl, rfl, fun _ => rfl⟩

theorem ack_not_acc (s : StreamState) (x : Nat) (w : Bool)
    (h : (s.acknowledgement x w).1 ≠ .ok true) :
    (s.acknowledgement x w).2.pending = s.pending ∧
      (s.acknowledgement x w).2.timeout = s.timeout ∧
      ((s.acknowledgement x w).2.error = none →
        (s.acknowledgement x w).2 = s) := by
  rcases hE : s.error with _ | e
  · rcases hp : s.pending with _ | ⟨u, r⟩
    · rw [ack_empty s x w hE hp]
      exact ⟨hp, rfl, fun _ => rfl⟩
    · by_cases hA : x ∈ s.acknowledged
      · rw [ack_dup s x w u r hE hp hA]
        exact ⟨hp, rfl, fun _ => rfl⟩
      · by_cases hx : x = u.uuidD
        · subst hx
          cases hC : s.checkpointed
          · rw [ack_accept_nocp s w u r hE hp hA hC] at h
            exact absurd rfl h
          · cases w
            · rw [ack_write_fail s u r hE hp hA hC]
              refine ⟨hp, rfl, fun hco => ?_⟩
              simp at hco
            · rw [ack_accept_cp s u r hE hp hA hC] at h
              exact absurd rfl h
        · rw [ack_mismatch s x w u r hE hp hA hx]
          exact ⟨hp, rfl, fun _ => rfl⟩
  · rw [acknowledgement_sticky s x w e hE]
    exact ⟨rfl, rfl, fun _ => rfl⟩

theorem update_acc (s : StreamState) (u : Update) (w : Bool)
    (h : (s.update u w).1 = .ok true) :
    s.error = none ∧
      ∃ x, u.statusUuid = some x ∧ x ∉ s.acknowledged ∧ x ∉ s.received ∧
        (s.update u w).2.pending = s.pending ++ [u] ∧
        (s.update u w).2.error = none ∧
        (s.update u w).2.received = insert x s.received ∧
        (s.update u w).2.acknowledged = s.acknowledged ∧
        (s.update u w).2.terminated = s.terminated ∧
        (s.update u w).2.timeout = s.timeout ∧
        (s.update u w).2.path = s.path ∧
        (s.checkpointed = true →
          (s.update u w).2.log = s.log ++ [mkRecord u .update]) ∧
        (s.checkpointed = false → (s.update u w).2.log = s.log) := by
  rcases hE : s.error with _ | e
  · rcases hU : u.statusUuid with _ | x
    · rw [update_missing s u w hE hU] at h
      exact absurd h (by simp)
    · by_cases hd : x ∈ s.acknowledged ∨ x ∈ s.received
      · rw [update_dup s u w x hE hU hd] at h
        exact absurd h (by simp)
      · push_neg at hd
        refine ⟨by simp [hE], x, by simp [hU], hd.1, hd.2, ?_⟩
        have hx : u.uuidD = x := Update.uuidD_eq hU
        cases hC : s.checkpointed
        · rw [update_accept_nocp s u w x hE hU hd.1 hd.2 hC]
          simp [handleMem, hx, hE]
        · cases w
          · rw [update_write_fail s u x hE hU hd.1 hd.2 hC] at h
            exact absurd h (by simp)
          · rw [update_accept_cp s u x hE hU hd.1 hd.2 hC]
            simp [handleMem, hx, hE]
  · rw [update_sticky s u w e hE] at h
    exact absurd h (by simp)

theorem ack_acc (s : StreamState) (x : Nat) (w : Bool)
    (h : (s.acknowledgement x w).1 = .ok true) :
    s.error = none ∧
      ∃ u r, s.pending = u :: r ∧ x = u.uuidD ∧ x ∉ s.acknowledged ∧
        (s.acknowledgement x w).2.pending = r ∧
        (s.acknowledgement x w).2.error = none ∧
        (s.acknowledgement x w).2.acknowledged = insert x s.acknowledged ∧
        (s.acknowledgement x w).2.received = s.received ∧
        (s.acknowledgement x w).2.terminated = (s.terminated || u.terminal) ∧
        (s.acknowledgement x w).2.timeout = s.timeout ∧
        (s.acknowledgement x w).2.frameworkId = s.frameworkId ∧
        (s.acknowledgement x w).2.path = s.path ∧
        (s.checkpointed = true →
          (s.acknowledgement x w).2.log = s.log ++ [mkRecord u .ack]) ∧
        (s.checkpointed = false → (s.acknowledgement x w).2.log = s.log) := by
  rcases hE : s.error with _ | e
  · rcases hp : s.pending with _ | ⟨u, r⟩
    · rw [ack_empty s x w hE hp] at h
      exact absurd h (by simp)
    · by_cases hA : x ∈ s.acknowledged
      · rw [ack_dup s x w u r hE hp hA] at h
        exact absurd h (by simp)
      · by_cases hx : x = u.uuidD
        · subst hx
          refine ⟨by simp [hE], u, r, by simp [hp], rfl, hA, ?_⟩
          cases hC : s.checkpointed
          · rw [ack_accept_nocp s w u r hE hp hA hC]
            simp [handleMem, hp, hE]
          · cases w
            · rw [ack_write_fail s u r hE hp hA hC] at h
              exact absurd h (by simp)
            · rw [ack_accept_cp s u r hE hp hA hC]
              simp [handleMem, hp, hE]
        · rw [ack_mismatch s x w u r hE hp hA hx] at h
          exact absurd h (by simp)
  · rw [acknowledgement_sticky s x w e hE] at h
    exact absurd h (by simp)

theorem update_second (s : StreamState) (u : Update) (w : Bool) :
    ((s.update u w).2.update u w).2 = (s.update u w).2 ∧
      ((s.update u w).2.update u w).1 ≠ .ok true := by
  rcases hE : s.error with _ | e
  · rcases hU : u.statusUuid with _ | x
    · rw [update_missing s u w hE hU]
      rw [update_missing s u w hE hU]
      simp
    · by_cases hd : x ∈ s.acknowledged ∨ x ∈ s.received
      · rw [update_dup s u w x hE hU hd, update_dup s u w x hE hU hd]
        simp
      · push_neg at hd
        have hx : u.uuidD = x := Update.uuidD_eq hU
        cases hC : s.checkpointed
        · rw [update_accept_nocp s u w x hE hU hd.1 hd.2 hC]
          have h1 : (s.handleMem u .update).error = none := by
            simp [handleMem, hE]
          have h2 : x ∈ (s.handleMem u .update).received := by
            simp [handleMem, hx]
          rw [update_dup (s.handleMem u .update) u w x h1 hU (Or.inr h2)]
          simp
        · cases w
          · rw [update_write_fail s u x hE hU hd.1 hd.2 hC]
            rw [update_sticky _ u false writeFailMsg rfl]
            simp
          · rw [update_accept_cp s u x hE hU hd.1 hd.2 hC]
            set s₁ := ({ s with log := s.log ++ [mkRecord u .update] }).handleMem u .update with hs₁
            have h1 : s₁.error = none := by
              simp [hs₁, handleMem, hE]
            have h2 : x ∈ s₁.received := by
              simp [hs₁, handleMem, hx]
            rw [update_dup s₁ u true x h1 hU (Or.inr h2)]
            simp
  · rw [update_sticky s u w e hE, update_sticky s u w e hE]
    simp

theorem update_not_acc_eq (s : StreamState) (u : Update) (w : Bool)
    (h : (s.update u w).1 ≠ .ok true) :
    (s.update u w).2 = s ∨
      (s.update u w).2 = { s with error := some writeFailMsg } := by
  rcases hE : s.error with _ | e
  · rcases hU : u.statusUuid with _ | x
    · rw [update_missing s u w hE hU]
      left; rfl
    · by_cases hd : x ∈ s.acknowledged ∨ x ∈ s.received
      · rw [update_dup s u w x hE hU hd]
        left; rfl
      · push_neg at hd
        cases hC : s.checkpointed
        · rw [update_accept_nocp s u w x hE hU hd.1 hd.2 hC] at h
          exact absurd rfl h
        · cases w
          · rw [update_write_fail s u x hE hU hd.1 hd.2 hC]
            right; rfl
          · rw [update_accept_cp s u x hE hU hd.1 hd.2 hC] at h
            exact absurd rfl h
  · rw [update_sticky s u w e hE]
    left; rfl

theorem ack_not_acc_eq (s : StreamState) (x : Nat) (w : Bool)
    (h : (s.acknowledgement x w).1 ≠ .ok true) :
    (s.acknowledgement x w).2 = s ∨
      (s.acknowledgement x w).2 = { s with error := some writeFailMsg } := by
  rcases hE : s.error with _ | e
  · rcases hp : s.pending with _ | ⟨u, r⟩
    · rw [ack_empty s x w hE hp]
      left; rfl
    · by_cases hA : x ∈ s.acknowledged
      · rw [ack_dup s x w u r hE hp hA]
        left; rfl
      · by_cases hx : x = u.uuidD
        · subst hx
          cases hC : s.checkpointed
          · rw [ack_accept_nocp s w u r hE hp hA hC] at h
            exact absurd rfl h
          · cases w
            · rw [ack_write_fail s u r hE hp hA hC]
              right
              rw [hp]
            · rw [ack_accept_cp s u r hE hp hA hC] at h
              exact absurd rfl h
        · rw [ack_mismatch s x w u r hE hp hA hx]
          left; rfl
  · rw [acknowledgement_sticky s x w e hE]
    left; rfl

theorem handleMem_update_fid (s : StreamState) (u : Update)
    (hval : ∀ f, u.frameworkId = some f → s.frameworkId = some f) :
    (s.handleMem u .update).frameworkId = s.frameworkId := by
  cases hf : u.frameworkId with
  | none => simp [handleMem, hf]
  | some f =>
    simp [handleMem, hf]
    exact (hval f hf).symm

theorem update_fid (s : StreamState) (u : Update) (w : Bool)
    (hval : ∀ f, u.frameworkId = some f → s.frameworkId = some f) :
    (s.update u w).2.frameworkId = s.frameworkId := by
  rcases update_snd s u w with h | h
  · rw [h]
  · rw [h]
    unfold handle
    split
    · split
      · exact handleMem_update_fid _ u hval
      · rfl
    · exact handleMem_update_fid s u hval

theorem update_oblivious (s : StreamState) (u : Update) (w : Bool)
    (t : Option RetryTimeout) :
    ({ s with timeout := t } : StreamState).update u w =
      ((s.update u w).1, { (s.update u w).2 with timeout := t }) := by
  rcases Option.eq_none_or_eq_some s.error with hE | ⟨e, hE⟩
  · rcases Option.eq_none_or_eq_some u.statusUuid with hU | ⟨x, hU⟩
    · rw [update_missing { s with timeout := t } u w hE hU,
        update_missing s u w hE hU]
    · by_cases hd : x ∈ s.acknowledged ∨ x ∈ s.received
      · rw [update_dup { s with timeout := t } u w x hE hU hd,
        update_dup s u w x hE hU hd]
      · push_neg at hd
        by_cases hC : s.checkpointed = true
        · cases w
          · rw [update_write_fail { s with timeout := t } u x hE hU hd.1 hd.2 hC,
              update_write_fail s u x hE hU hd.1 hd.2 hC]
          · rw [update_accept_cp { s with timeout := t } u x hE hU hd.1 hd.2 hC,
              update_accept_cp s u x hE hU hd.1 hd.2 hC]
            simp [handleMem]
        · have hC' : s.checkpointed = false := by
            simpa using hC
          rw [update_accept_nocp { s with timeout := t } u w x hE hU hd.1 hd.2 hC',
            update_accept_nocp s u w x hE hU hd.1 hd.2 hC']
          simp [handleMem]
  · rw [update_sticky { s with timeout := t } u w e hE,
      update_sticky s u w e hE]

end StreamState

/-- Decomposition witnessing the stream invariant: `acc` is the list of
accepted updates in acceptance order and `k` the number of them already
acknowledged, so that `pending` is exactly the un-acknowledged suffix,
`received` the UUIDs of all accepted updates, and `acknowledged` the UUIDs of
the acknowledged prefix. -/
def StreamDecomp (s : StreamState) (acc : List Update) (k : Nat) : Prop :=
  k ≤ acc.length ∧ (acc.map Update.uuidD).Nodup ∧
    s.pending = acc.drop k ∧
    s.received = (acc.map Update.uuidD).toFinset ∧
    s.acknowledged = ((acc.take k).map Update.uuidD).toFinset

/-- The stream invariant of the spec: some acceptance decomposition exists. -/
def StreamInv (s : StreamState) : Prop := ∃ acc k, StreamDecomp s acc k

theorem streamDecomp_init (sid : Nat) (fid : Option Nat)
    (path : Option String) : StreamDecomp (StreamState.init sid fid path) [] 0 := by
  refine ⟨by simp, by simp, ?_, ?_, ?_⟩ <;> simp [StreamState.init]

theorem streamDecomp_subset {s : StreamState} {acc : List Update} {k : Nat}
    (h : StreamDecomp s acc k) : s.acknowledged ⊆ s.received := by
  obtain ⟨_, _, _, hr, ha⟩ := h
  rw [hr, ha]
  intro a hmem
  simp only [List.mem_toFinset] at hmem ⊢
  obtain ⟨u, hu, rfl⟩ := List.mem_map.mp hmem
  exact List.mem_map_of_mem _ (List.mem_of_mem_take hu)

theorem streamDecomp_order {s : StreamState} {acc : List Update} {k : Nat}
    (h : StreamDecomp s acc k) :
    s.pending.map Update.uuidD = (acc.map Update.uuidD).drop k := by
  rw [h.2.2.1, List.map_drop]

theorem streamDecomp_same {s s' : StreamState} {acc : List Update} {k : Nat}
    (h : StreamDecomp s acc k) (hp : s'.pending = s.pending)
    (hr : s'.received = s.received) (ha : s'.acknowledged = s.acknowledged) :
    StreamDecomp s' acc k := by
  obtain ⟨h1, h2, h3, h4, h5⟩ := h
  exact ⟨h1, h2, hp.trans h3, hr.trans h4, ha.trans h5⟩

theorem streamDecomp_update (s : StreamState) (u : Update) (w : Bool)
    {acc : List Update} {k : Nat} (h : StreamDecomp s acc k) :
    ∃ acc' k', StreamDecomp (s.update u w).2 acc' k' := by
  obtain ⟨hk, hnd, hp, hr, ha⟩ := h
  by_cases hacc : (s.update u w).1 = .ok true
  · obtain ⟨hE, x, hU, hA, hR, hp', hE', hr', ha', hter, hto, hpa, _, _⟩ :=
      StreamState.update_acc s u w hacc
    refine ⟨acc ++ [u], k, ?_, ?_, ?_, ?_, ?_⟩
    · simp
      omega
    · have hxmem : x ∉ acc.map Update.uuidD := by
        intro hmem
        exact hR (by rw [hr]; simpa [List.mem_toFinset] using hmem)
      simp only [List.map_append, List.map_cons, List.map_nil,
        Update.uuidD_eq hU]
      simp [List.nodup_append, hnd]
      intro a hmem heq
      exact hxmem (List.mem_map.mpr ⟨a, hmem, by simp [heq]⟩)
    · rw [hp', hp, List.drop_append_of_le_length hk]
    · rw [hr', hr]
      simp only [List.map_append, List.map_cons, List.map_nil,
        Update.uuidD_eq hU, List.toFinset_append]
      ext a
      simp [or_comm]
    · rw [ha', ha, List.take_append_of_le_length hk]
  · rcases StreamState.update_not_acc_eq s u w hacc with heq | heq <;>
      exact ⟨acc, k, by rw [heq]; exact ⟨hk, hnd, hp, hr, ha⟩⟩

theorem streamDecomp_ack (s : StreamState) (x : Nat) (w : Bool)
    {acc : List Update} {k : Nat} (h : StreamDecomp s acc k) :
    ∃ acc' k', StreamDecomp (s.acknowledgement x w).2 acc' k' := by
  obtain ⟨hk, hnd, hp, hr, ha⟩ := h
  by_cases hacc : (s.acknowledgement x w).1 = .ok true
  · obtain ⟨hE, u, r, hp₀, hx, hA, hp', hE', ha', hr', hter, hto, hfid, hpa,
      _, _⟩ := StreamState.ack_acc s x w hacc
    have hdrop : acc.drop k = u :: r := by rw [← hp, hp₀]
    have hklt : k < acc.length := by
      by_contra hge
      push_neg at hge
      rw [List.drop_eq_nil_of_le hge] at hdrop
      exact List.noConfusion hdrop
    have hget : acc[k]? = some u := by
      have h0 : (acc.drop k)[0]? = some u := by rw [hdrop]; simp
      rwa [List.getElem?_drop, Nat.add_zero] at h0
    refine ⟨acc, k + 1, hklt, hnd, ?_, ?_, ?_⟩
    · rw [hp']
      have : acc.drop (k + 1) = (acc.drop k).tail := by
        rw [← List.drop_one, List.drop_drop]
      rw [this, hdrop]
      rfl
    · rw [hr', hr]
    · rw [ha', ha, List.take_succ, hget]
      simp only [Option.toList_some, List.map_append, List.map_cons,
        List.map_nil, List.toFinset_append]
      rw [hx]
      ext a
      simp [or_comm]
  · rcases StreamState.ack_not_acc_eq s x w hacc with heq | heq <;>
      exact ⟨acc, k, by rw [heq]; exact ⟨hk, hnd, hp, hr, ha⟩⟩

theorem streamInv_applyOp (s : StreamState) (op : StreamOp)
    (h : StreamInv s) : StreamInv (s.applyOp op) := by
  obtain ⟨acc, k, hd⟩ := h
  cases op with
  | upd u w => exact streamDecomp_update s u w hd
  | ack x w => exact streamDecomp_ack s x w hd

theorem streamInv_runOps (ops : List StreamOp) (s : StreamState)
    (h : StreamInv s) : StreamInv (s.runOps ops) := by
  induction ops generalizing s with
  | nil => exact h
  | cons op rest ih =>
    exact ih (s.applyOp op) (streamInv_applyOp s op h)

/-- Replaying the stream's own checkpoint log from a fresh stream succeeds
and reproduces the stream's in-memory dedup sets, pending queue and
terminated flag (spec: the in-memory state of a checkpointed stream is a
deterministic function of the log's successfully written records). -/
def ReplaysToSelf (s : StreamState) : Prop :=
  ∀ sid₀ fid₀ p₀, ∃ sr upds,
    replayRecords (StreamState.init sid₀ fid₀ p₀) [] s.log = .ok (sr, upds) ∧
    sr.error = none ∧ sr.received = s.received ∧
    sr.acknowledged = s.acknowledged ∧ sr.pending = s.pending ∧
    sr.terminated = s.terminated

theorem replayRecords_append (s : StreamState) (acc : List Update)
    (l₁ l₂ : List CheckpointRecord) :
    replayRecords s acc (l₁ ++ l₂) =
      match replayRecords s acc l₁ with
      | .err e => .err e
      | .ok (s', acc') => replayRecords s' acc' l₂ := by
  induction l₁ generalizing s acc with
  | nil => simp [replayRecords]
  | cons r rs ih =>
    simp only [List.cons_append, replayRecords]
    rcases hh : replayStep s acc r with ⟨s', acc'⟩ | e
    · exact ih s' acc'
    · rfl

theorem replaysToSelf_init (sid : Nat) (fid : Option Nat)
    (path : Option String) : ReplaysToSelf (StreamState.init sid fid path) := by
  intro sid₀ fid₀ p₀
  exact ⟨StreamState.init sid₀ fid₀ p₀, [],
    by simp [replayRecords, StreamState.init], rfl, rfl, rfl, rfl, rfl⟩

theorem applyOp_checkpointed (s : StreamState) (op : StreamOp) :
    (s.applyOp op).checkpointed = s.checkpointed := by
  cases op with
  | upd u w =>
    simp [StreamState.applyOp, StreamState.checkpointed,
      StreamState.update_path]
  | ack x w =>
    simp [StreamState.applyOp, StreamState.checkpointed,
      StreamState.acknowledgement_path]

theorem replaysToSelf_applyOp (s : StreamState) (op : StreamOp)
    (hC : s.checkpointed = true) (h : ReplaysToSelf s) :
    ReplaysToSelf (s.applyOp op) := by
  cases op with
  | upd u w =>
    simp only [StreamState.applyOp]
    by_cases hacc : (s.update u w).1 = .ok true
    · obtain ⟨hE, x, hU, hA, hR, hp', hE', hr', ha', hter, hto, hpa, hlog, _⟩ :=
        StreamState.update_acc s u w hacc
      intro sid₀ fid₀ p₀
      obtain ⟨sr, upds, hrep, hsrE, hsrR, hsrA, hsrP, hsrT⟩ := h sid₀ fid₀ p₀
      refine ⟨sr.handleMem u .update, upds ++ [u], ?_, ?_, ?_, ?_, ?_, ?_⟩
      · show replayRecords _ [] (s.update u w).2.log = _
        rw [hlog hC, replayRecords_append, hrep]
        simp [replayRecords, replayStep, StreamState.mkRecord]
      · simp [StreamState.handleMem, hsrE]
      · show _ = (s.update u w).2.received
        rw [hr']
        simp [StreamState.handleMem, hsrR, Update.uuidD_eq hU]
      · show _ = (s.update u w).2.acknowledged
        rw [ha']
        simp [StreamState.handleMem, hsrA]
      · show _ = (s.update u w).2.pending
        rw [hp']
        simp [StreamState.handleMem, hsrP]
      · show _ = (s.update u w).2.terminated
        rw [hter]
        simp [StreamState.handleMem, hsrT]
    · intro sid₀ fid₀ p₀
      obtain ⟨sr, upds, hrep, hsrE, hsrR, hsrA, hsrP, hsrT⟩ := h sid₀ fid₀ p₀
      rcases StreamState.update_not_acc_eq s u w hacc with heq | heq <;>
        · rw [heq]
          exact ⟨sr, upds, hrep, hsrE, hsrR, hsrA, hsrP, hsrT⟩
  | ack x w =>
    simp only [StreamState.applyOp]
    by_cases hacc : (s.acknowledgement x w).1 = .ok true
    · obtain ⟨hE, u, r, hp₀, hx, hA, hp', hE', ha', hr', hter, hto, hfid, hpa,
        hlog, _⟩ := StreamState.ack_acc s x w hacc
      intro sid₀ fid₀ p₀
      obtain ⟨sr, upds, hrep, hsrE, hsrR, hsrA, hsrP, hsrT⟩ := h sid₀ fid₀ p₀
      refine ⟨sr.handleMem u .ack, upds, ?_, ?_, ?_, ?_, ?_, ?_⟩
      · show replayRecords _ [] (s.acknowledgement x w).2.log = _
        rw [hlog hC, replayRecords_append, hrep]
        simp [replayRecords, replayStep, StreamState.mkRecord,
          StreamState.next, hsrE, hsrP, hp₀]
      · simp [StreamState.handleMem, hsrE]
      · show _ = (s.acknowledgement x w).2.received
        rw [hr']
        simp [StreamState.handleMem, hsrR]
      · show _ = (s.acknowledgement x w).2.acknowledged
        rw [ha', hx]
        simp [StreamState.handleMem, hsrA]
      · show _ = (s.acknowledgement x w).2.pending
        rw [hp']
        simp [StreamState.handleMem, hsrP, hp₀]
      · show _ = (s.acknowledgement x w).2.terminated
        rw [hter]
        simp [StreamState.handleMem, hsrT]
    · intro sid₀ fid₀ p₀
      obtain ⟨sr, upds, hrep, hsrE, hsrR, hsrA, hsrP, hsrT⟩ := h sid₀ fid₀ p₀
      rcases StreamState.ack_not_acc_eq s x w hacc with heq | heq <;>
        · rw [heq]
          exact ⟨sr, upds, hrep, hsrE, hsrR, hsrA, hsrP, hsrT⟩

theorem replaysToSelf_runOps (ops : List StreamOp) (s : StreamState)
    (hC : s.checkpointed = true) (h : ReplaysToSelf s) :
    ReplaysToSelf (s.runOps ops) := by
  induction ops generalizing s with
  | nil => exact h
  | cons op rest ih =>
    exact ih (s.applyOp op) (by rw [applyOp_checkpointed]; exact hC)
      (replaysToSelf_applyOp s op hC h)

theorem keys_lookupA {α : Type} {l : List (Nat × α)} {x : Nat}
    (h : x ∈ l.map Prod.fst) : ∃ v, lookupA l x = some v := by
  induction l with
  | nil => simp at h
  | cons p rest ih =>
    obtain ⟨k', v'⟩ := p
    by_cases hk : k' = x
    · exact ⟨v', by simp [lookupA, hk]⟩
    · simp only [List.map_cons, List.mem_cons] at h
      rcases h with h | h
    

      · exact absurd h.symm hk
      · obtain ⟨v, hv⟩ := ih h
        exact ⟨v, by simp [lookupA, hk, hv]⟩

theorem lookupA_none_not_mem {α : Type} {l : List (Nat × α)} {x : Nat}
    (h : lookupA l x = none) : x ∉ l.map Prod.fst := by
  intro hmem
  obtain ⟨v, hv⟩ := keys_lookupA hmem
  rw [h] at hv
  exact Option.noConfusion hv

theorem mem_lookupA_of_nodup {α : Type} {l : List (Nat × α)}
    (hnd : (l.map Prod.fst).Nodup) {k : Nat} {v : α} (h : (k, v) ∈ l) :
    lookupA l k = some v := by
  induction l with
  | nil => cases h
  | cons p rest ih =>
    obtain ⟨k', v'⟩ := p
    simp only [List.map_cons, List.nodup_cons] at hnd
    rcases List.mem_cons.mp h with h | h
    · obtain ⟨h1, h2⟩ := Prod.mk.injEq .. ▸ h
      simp [lookupA, h1.symm, h2]
    · have hk : k' ≠ k := by
        intro hkk
        subst hkk
        exact hnd.1 (List.mem_map_of_mem Prod.fst h)
      simp [lookupA, hk, ih hnd.2 h]

/-- The per-stream part of the reachable-state invariant: an armed timer
implies a pending head; an unpaused, error-free stream with a pending head
has an armed timer; an armed timer's backoff never exceeds the retry cap. -/
def StreamOk (paused : Bool) (s : StreamState) : Prop :=
  (s.timeout.isSome = true → s.pending ≠ []) ∧
    (paused = false → s.error = none → s.pending ≠ [] →
      s.timeout.isSome = true) ∧
    (∀ t, s.timeout = some t → t.duration ≤ RETRY_INTERVAL_MAX)

/-- The manager-level reachable-state invariant: stream keys are unique and
every registered stream satisfies `StreamOk`. -/
def ManagerInv (m : Manager) : Prop :=
  (m.streams.map Prod.fst).Nodup ∧
    ∀ sid s, lookupA m.streams sid = some s → StreamOk m.paused s

theorem streamOk_error_set (p : Bool) (s : StreamState) (h : StreamOk p s) :
    StreamOk p { s with error := some writeFailMsg } := by
  refine ⟨h.1, fun _ habs => absurd habs (by simp), h.2.2⟩

theorem streamOk_init (p : Bool) (sid : Nat) (fid : Option Nat)
    (path : Option String) : StreamOk p (StreamState.init sid fid path) := by
  refine ⟨?_, ?_, ?_⟩
  · intro habs
    simp [StreamState.init] at habs
  · intro _ _ habs
    exact absurd rfl habs
  · intro t ht
    simp [StreamState.init] at ht

theorem streamOk_pause (p : Bool) (s : StreamState) (h : StreamOk p s) :
    StreamOk true s :=
  ⟨h.1, fun habs => Bool.noConfusion habs, h.2.2⟩

theorem managerInv_congr {m m' : Manager} (h : ManagerInv m)
    (hp : m'.paused = m.paused) (hs : m'.streams = m.streams) :
    ManagerInv m' := by
  refine ⟨hs ▸ h.1, fun sid s hl => ?_⟩
  rw [hs] at hl
  rw [hp]
  exact h.2 sid s hl

theorem managerInv_insert {m m' : Manager} (h : ManagerInv m) (sid : Nat)
    (s' : StreamState) (hp : m'.paused = m.paused)
    (hs : m'.streams = insertA m.streams sid s')
    (hok : StreamOk m.paused s') : ManagerInv m' := by
  constructor
  · rw [hs]
    exact keysNodup_insertA sid s' h.1
  · intro sid' s'' hl
    rw [hs, lookupA_insertA] at hl
    rw [hp]
    by_cases hss : sid = sid'
    · rw [if_pos hss] at hl
      cases hl
      exact hok
    · rw [if_neg hss] at hl
      exact h.2 sid' s'' hl

theorem managerInv_insert2 {m m' : Manager} (h : ManagerInv m) (sid : Nat)
    (s₁ s₂ : StreamState) (hp : m'.paused = m.paused)
    (hs : m'.streams = insertA (insertA m.streams sid s₁) sid s₂)
    (hok : StreamOk m.paused s₂) : ManagerInv m' := by
  constructor
  · rw [hs]
    exact keysNodup_insertA sid s₂ (keysNodup_insertA sid s₁ h.1)
  · intro sid' s'' hl
    rw [hs, lookupA_insertA] at hl
    rw [hp]
    by_cases hss : sid = sid'
    · rw [if_pos hss] at hl
      cases hl
      exact hok
    · rw [if_neg hss, lookupA_insertA, if_neg hss] at hl
      exact h.2 sid' s'' hl

theorem next_err {s : StreamState} {e : String} (h : s.next = .err e) :
    s.error = some e := by
  unfold StreamState.next at h
  rcases hE : s.error with _ | e'
  · rw [hE] at h
    exact Try.noConfusion h
  · rw [hE] at h
    cases h
    rfl

theorem next_ok {s : StreamState} {o : Option Update} (h : s.next = .ok o) :
    s.error = none ∧ s.pending.head? = o := by
  unfold StreamState.next at h
  rcases hE : s.error with _ | e'
  · rw [hE] at h
    cases h
    exact ⟨rfl, rfl⟩
  · rw [hE] at h
    exact Try.noConfusion h

theorem managerInv_updateGo (m₁ : Manager) (u : Update) (sid : Nat)
    (cp : Bool) (env : IOEnv) (s : StreamState) (h : ManagerInv m₁)
    (hs : lookupA m₁.streams sid = some s) :
    ManagerInv (m₁.updateGo u sid cp env s).2 := by
  unfold Manager.updateGo
  by_cases h1 : s.checkpointed ≠ cp
  · rw [if_pos h1]
    exact h
  · rw [if_neg h1]
    by_cases h2 : u.frameworkId.isSome ≠ s.frameworkId.isSome
    · rw [if_pos h2]
      exact h
    · rw [if_neg h2]
      by_cases h3 : u.frameworkId.isSome ∧ u.frameworkId ≠ s.frameworkId
      · rw [if_pos h3]
        exact h
      · rw [if_neg h3]
        rcases hres : s.update u env.writeOk with ⟨r, s'⟩
        have hsok := h.2 sid s hs
        have hnotacc : ∀ b, r = Try.ok b → b = true →
            (s.update u env.writeOk).1 = .ok true := by
          intro b hb hbt
          rw [hres, hb, hbt]
        rcases r with b | e
        · cases b
          · -- duplicate
            refine managerInv_insert h sid s' rfl rfl ?_
            rcases StreamState.update_not_acc_eq s u env.writeOk
                (by rw [hres]; simp) with heq | heq
            · rw [hres] at heq
              have heq' : s' = s := heq
              rw [heq']
              exact hsok
            · rw [hres] at heq
              have heq' : s' = { s with error := some StreamState.writeFailMsg } := heq
              rw [heq']
              exact streamOk_error_set _ _ hsok
          · -- accepted
            have hacc : (s.update u env.writeOk).1 = .ok true := by
              rw [hres]
            obtain ⟨hE, x, hU, hA, hR, hp₀, hE₀, hr₀, ha₀, hter₀, hto₀, hpa₀,
              _, _⟩ := StreamState.update_acc s u env.writeOk hacc
            rw [hres] at hp₀ hE₀ hto₀
            have hp' : s'.pending = s.pending ++ [u] := hp₀
            have hE' : s'.error = none := hE₀
            have hto : s'.timeout = s.timeout := hto₀
            dsimp only [Manager.forward]
            by_cases harm : ¬m₁.paused ∧ s'.pending.length = 1
            · rw [if_pos harm]
              rcases hnx : s'.next with o | e
              · rcases o with _ | nxt
                · exfalso
                  obtain ⟨_, hhd⟩ := next_ok hnx
                  rw [hp'] at hhd
                  rcases s.pending with _ | ⟨a, l⟩ <;> simp at hhd
                · refine managerInv_insert2 h sid s' _ rfl rfl ?_
                  refine ⟨fun _ => ?_, fun _ _ _ => rfl, fun t ht => ?_⟩
                  · show s'.pending ≠ []
                    rw [hp']
                    simp
                  · cases ht
                    simp [RETRY_INTERVAL_MIN, RETRY_INTERVAL_MAX]
              · refine managerInv_insert h sid s' rfl rfl ?_
                refine ⟨fun _ => ?_, fun _ hEz _ => ?_, fun t ht => ?_⟩
                · rw [hp']
                  simp
                · exact absurd (next_err hnx ▸ hEz) (by simp [next_err hnx])
                · rw [hto] at ht
                  exact hsok.2.2 t ht
            · rw [if_neg harm]
              refine managerInv_insert h sid s' rfl rfl ?_
              refine ⟨fun _ => ?_, fun hpz hEz hpn => ?_, fun t ht => ?_⟩
              · rw [hp']
                simp
              · rw [hto]
                push_neg at harm
                have hlen := harm (by simp [hpz])
                have hspn : s.pending ≠ [] := by
                  intro hnil
                  rw [hnil] at hp'
                  rw [hp'] at hlen
                  simp at hlen
                exact hsok.2.1 hpz hE hspn
              · rw [hto] at ht
                exact hsok.2.2 t ht
        · -- stream-level error
          refine managerInv_insert h sid s' rfl rfl ?_
          rcases StreamState.update_not_acc_eq s u env.writeOk
              (by rw [hres]; simp) with heq | heq
          · rw [hres] at heq
            have heq' : s' = s := heq
            rw [heq']
            exact hsok
          · rw [hres] at heq
            have heq' : s' = { s with error := some StreamState.writeFailMsg } := heq
            rw [heq']
            exact streamOk_error_set _ _ hsok

theorem create_ok {sid : Nat} {fid : Option Nat} {path : Option String}
    {env : IOEnv} {s₀ : StreamState}
    (h : StreamState.create sid fid path env = .ok s₀) :
    s₀ = StreamState.init sid fid path := by
  rcases path with _ | p
  · simp only [StreamState.create] at h
    cases h
    rfl
  · simp only [StreamState.create] at h
    split at h
    · exact Try.noConfusion h
    · split at h
      · exact Try.noConfusion h
      · split at h
        · exact Try.noConfusion h
        · cases h
          rfl

theorem managerInv_update (m : Manager) (u : Update) (sid : Nat) (cp : Bool)
    (env : IOEnv) (h : ManagerInv m) : ManagerInv (m.update u sid cp env).2 := by
  unfold Manager.update
  rcases hs : lookupA m.streams sid with _ | s
  · rcases hc : Manager.createStream m sid u.frameworkId cp env with ⟨rc, m₁⟩
    rcases rc with _ | e
    · have hshape : ∃ s₀,
          s₀ = StreamState.init sid u.frameworkId
            (if cp then some (getPath sid) else none) ∧
          m₁.streams = insertA m.streams sid s₀ ∧ m₁.paused = m.paused := by
        unfold Manager.createStream at hc
        rcases hcr : StreamState.create sid u.frameworkId
            (if cp then some (getPath sid) else none) env with s₀ | e
        · rw [hcr] at hc
          cases hc
          exact ⟨s₀, create_ok hcr, rfl, rfl⟩
        · rw [hcr] at hc
          exact Try.noConfusion (congrArg Prod.fst hc)
      obtain ⟨s₀, hs₀, hm₁s, hm₁p⟩ := hshape
      have hm₁ : ManagerInv m₁ :=
        managerInv_insert h sid s₀ hm₁p hm₁s
          (hs₀ ▸ streamOk_init m.paused sid u.frameworkId _)
      have hlook : lookupA m₁.streams sid = some s₀ := by
        rw [hm₁s, lookupA_insertA]
        simp
      dsimp only
      rw [hlook]
      exact managerInv_updateGo m₁ u sid cp env s₀ hm₁ hlook
    · exact h
  · exact managerInv_updateGo m u sid cp env s h hs

theorem cleanupStream_streams (m : Manager) (sid x : Nat) :
    lookupA (m.cleanupStream sid).streams x =
      if sid = x then none else lookupA m.streams x := by
  unfold Manager.cleanupStream
  rcases hl : lookupA m.streams sid with _ | s
  · by_cases hx : sid = x
    · rw [if_pos hx, ← hx]
      exact hl
    · rw [if_neg hx]
  · dsimp only
    rcases hf : s.frameworkId with _ | f
    · exact lookupA_eraseA m.streams sid x
    · exact lookupA_eraseA m.streams sid x

theorem cleanupStream_paused (m : Manager) (sid : Nat) :
    (m.cleanupStream sid).paused = m.paused := by
  unfold Manager.cleanupStream
  rcases hl : lookupA m.streams sid with _ | s
  · rfl
  · dsimp only
    rcases hf : s.frameworkId with _ | f <;> rfl

theorem cleanupStream_streams_eq (m : Manager) (sid : Nat) :
    (m.cleanupStream sid).streams = m.streams ∨
      (m.cleanupStream sid).streams = eraseA m.streams sid := by
  unfold Manager.cleanupStream
  rcases hl : lookupA m.streams sid with _ | s
  · left; rfl
  · dsimp only
    rcases hf : s.frameworkId with _ | f
    · right; rfl
    · right; rfl

theorem managerInv_cleanupStream (m : Manager) (sid : Nat)
    (h : ManagerInv m) : ManagerInv (m.cleanupStream sid) := by
  constructor
  · rcases cleanupStream_streams_eq m sid with he | he <;> rw [he]
    · exact h.1
    · exact keysNodup_eraseA sid h.1
  · intro sid' s' hl
    rw [cleanupStream_streams] at hl
    by_cases hx : sid = sid'
    · rw [if_pos hx] at hl
      exact Option.noConfusion hl
    · rw [if_neg hx] at hl
      rw [cleanupStream_paused]
      exact h.2 sid' s' hl

theorem managerInv_cleanup_insert (m : Manager) (sid : Nat)
    (s₂ : StreamState) (h : ManagerInv m) :
    ManagerInv (({ m with streams := insertA m.streams sid s₂ } : Manager).cleanupStream sid) := by
  constructor
  · rcases cleanupStream_streams_eq
        { m with streams := insertA m.streams sid s₂ } sid with he | he <;>
      rw [he]
    · exact keysNodup_insertA sid _ h.1
    · exact keysNodup_eraseA sid (keysNodup_insertA sid _ h.1)
  · intro sid' s' hl
    rw [cleanupStream_streams] at hl
    by_cases hxx : sid = sid'
    · rw [if_pos hxx] at hl
      exact Option.noConfusion hl
    · rw [if_neg hxx] at hl
      have hl2 : lookupA (insertA m.streams sid s₂) sid' = some s' := hl
      rw [lookupA_insertA, if_neg hxx] at hl2
      rw [cleanupStream_paused]
      exact h.2 sid' s' hl2

theorem managerInv_ack (m : Manager) (sid uuid : Nat) (env : IOEnv)
    (h : ManagerInv m) : ManagerInv (m.acknowledgement sid uuid env).2 := by
  unfold Manager.acknowledgement
  rcases hs : lookupA m.streams sid with _ | s
  · exact h
  · dsimp only
    have hsok := h.2 sid s hs
    rcases hres : s.acknowledgement uuid env.writeOk with ⟨r, s₁⟩
    rcases r with b | e
    · cases b
      · -- duplicate
        refine managerInv_insert h sid s₁ rfl rfl ?_
        rcases StreamState.ack_not_acc_eq s uuid env.writeOk
            (by rw [hres]; simp) with heq | heq
        · rw [hres] at heq
          have heq' : s₁ = s := heq
          rw [heq']
          exact hsok
        · rw [hres] at heq
          have heq' : s₁ = { s with error := some StreamState.writeFailMsg } := heq
          rw [heq']
          exact streamOk_error_set _ _ hsok
      · -- success
        have hacc : (s.acknowledgement uuid env.writeOk).1 = .ok true := by
          rw [hres]
        obtain ⟨hE, u, r', hp₀, hx, hA, hp₁, hE₁, ha₁, hr₁, hter₁, hto₁,
          hfid₁, hpa₁, _, _⟩ := StreamState.ack_acc s uuid env.writeOk hacc
        rw [hres] at hp₁ hE₁
        have hp' : s₁.pending = r' := hp₁
        have hE' : s₁.error = none := hE₁
        dsimp only [Manager.forward]
        by_cases hterm : s₁.terminated = true
        · rw [if_pos hterm]
          exact managerInv_cleanup_insert m sid _ h
        · rw [if_neg hterm]
          rcases hh : s₁.pending.head? with _ | nxt
          · dsimp only
            refine managerInv_insert h sid _ rfl rfl ?_
            refine ⟨fun habs => ?_, fun _ _ hpn => ?_, fun t ht => ?_⟩
            · simp at habs
            · exact absurd (by rwa [List.head?_eq_none_iff] at hh) hpn
            · simp at ht
          · dsimp only
            by_cases hpz : ¬m.paused
            · rw [if_pos hpz]
              refine managerInv_insert2 h sid _ _ rfl rfl ?_
              refine ⟨fun _ => ?_, fun _ _ _ => rfl, fun t ht => ?_⟩
              · show s₁.pending ≠ []
                intro hnil
                rw [hnil] at hh
                exact Option.noConfusion hh
              · cases ht
                simp [RETRY_INTERVAL_MIN, RETRY_INTERVAL_MAX]
            · rw [if_neg hpz]
              refine managerInv_insert h sid _ rfl rfl ?_
              refine ⟨fun habs => ?_, fun hpf _ _ => ?_, fun t ht => ?_⟩
              · simp at habs
              · exact absurd (by simp [hpf]) hpz
              · simp at ht
    · -- stream-level error
      refine managerInv_insert h sid s₁ rfl rfl ?_
      rcases StreamState.ack_not_acc_eq s uuid env.writeOk
          (by rw [hres]; simp) with heq | heq
      · rw [hres] at heq
        have heq' : s₁ = s := heq
        rw [heq']
        exact hsok
      · rw [hres] at heq
        have heq' : s₁ = { s with error := some StreamState.writeFailMsg } := heq
        rw [heq']
        exact streamOk_error_set _ _ hsok

theorem managerInv_pause (m : Manager) (h : ManagerInv m) :
    ManagerInv m.pause := by
  refine ⟨h.1, fun sid s hl => ?_⟩
  exact streamOk_pause m.paused s (h.2 sid s hl)

/-- The stream re-arming performed by `resume` on a single stream: a stream
whose `next()` produces an update gets its timer re-armed at the minimum
retry interval; others are untouched. -/
def armOrKeep (s : StreamState) : StreamState :=
  match s.next with
  | .ok (some _) => { s with timeout := some ⟨RETRY_INTERVAL_MIN⟩ }
  | _ => s

theorem resumeGo_paused (todo : List (Nat × StreamState)) (acc : Manager) :
    (Manager.resumeGo todo acc).paused = acc.paused := by
  induction todo generalizing acc with
  | nil => rfl
  | cons p rest ih =>
    obtain ⟨sid₁, s₁⟩ := p
    rcases hn : s₁.next with o | e
    · rcases o with _ | u
      · simp only [Manager.resumeGo, hn]
        exact ih _
      · simp only [Manager.resumeGo, hn, Manager.forward]
        exact ih _
    · simp only [Manager.resumeGo, hn]
      exact ih _

theorem resumeGo_keysNodup (todo : List (Nat × StreamState)) (acc : Manager)
    (h : (acc.streams.map Prod.fst).Nodup) :
    ((Manager.resumeGo todo acc).streams.map Prod.fst).Nodup := by
  induction todo generalizing acc with
  | nil => exact h
  | cons p rest ih =>
    obtain ⟨sid₁, s₁⟩ := p
    rcases hn : s₁.next with o | e
    · rcases o with _ | u
      · simp only [Manager.resumeGo, hn]
        exact ih _ h
      · simp only [Manager.resumeGo, hn, Manager.forward]
        exact ih _ (keysNodup_insertA sid₁ _ h)
    · simp only [Manager.resumeGo, hn]
      exact ih _ h

theorem resumeGo_lookup_notin (todo : List (Nat × StreamState))
    (acc : Manager) (sid : Nat) (h : sid ∉ todo.map Prod.fst) :
    lookupA (Manager.resumeGo todo acc).streams sid =
      lookupA acc.streams sid := by
  induction todo generalizing acc with
  | nil => rfl
  | cons p rest ih =>
    obtain ⟨sid₁, s₁⟩ := p
    simp only [List.map_cons, List.mem_cons] at h
    push_neg at h
    rcases hn : s₁.next with o | e
    · rcases o with _ | u
      · simp only [Manager.resumeGo, hn]
        exact ih _ h.2
      · simp only [Manager.resumeGo, hn, Manager.forward]
        rw [ih _ h.2]
        show lookupA (insertA acc.streams sid₁ _) sid = _
        rw [lookupA_insertA, if_neg (fun hx => h.1 hx.symm)]
    · simp only [Manager.resumeGo, hn]
      exact ih _ h.2

theorem resumeGo_lookup_mem (todo : List (Nat × StreamState)) (acc : Manager)
    (hnd : (todo.map Prod.fst).Nodup)
    (hin : ∀ q ∈ todo, lookupA acc.streams q.1 = some q.2) :
    ∀ q ∈ todo,
      lookupA (Manager.resumeGo todo acc).streams q.1 = some (armOrKeep q.2) := by
  induction todo generalizing acc with
  | nil => intro q hq; cases hq
  | cons p rest ih =>
    obtain ⟨sid₁, s₁⟩ := p
    simp only [List.map_cons, List.nodup_cons] at hnd
    intro q hq
    rcases List.mem_cons.mp hq with hq | hq
    · subst hq
      rcases hn : s₁.next with o | e
      · rcases o with _ | u
        · simp only [Manager.resumeGo, hn]
          rw [resumeGo_lookup_notin rest acc sid₁ hnd.1]
          rw [hin (sid₁, s₁) (List.mem_cons_self _ _)]
          simp [armOrKeep, hn]
        · simp only [Manager.resumeGo, hn, Manager.forward]
          rw [resumeGo_lookup_notin rest _ sid₁ hnd.1]
          show lookupA (insertA acc.streams sid₁ _) sid₁ = _
          rw [lookupA_insertA, if_pos rfl]
          simp [armOrKeep, hn]
      · simp only [Manager.resumeGo, hn]
        rw [resumeGo_lookup_notin rest acc sid₁ hnd.1]
        rw [hin (sid₁, s₁) (List.mem_cons_self _ _)]
        simp [armOrKeep, hn]
    · have hq1 : q.1 ∈ rest.map Prod.fst := List.mem_map_of_mem Prod.fst hq
      have hne : sid₁ ≠ q.1 := by
        intro hx
        exact hnd.1 (hx ▸ hq1)
      rcases hn : s₁.next with o | e
      · rcases o with _ | u
        · simp only [Manager.resumeGo, hn]
          exact ih acc hnd.2 (fun q' hq' => hin q' (List.mem_cons_of_mem _ hq')) q hq
        · simp only [Manager.resumeGo, hn, Manager.forward]
          refine ih _ hnd.2 (fun q' hq' => ?_) q hq
          show lookupA (insertA acc.streams sid₁ _) q'.1 = some q'.2
          have hne' : sid₁ ≠ q'.1 := by
            intro hx
            exact hnd.1 (hx ▸ List.mem_map_of_mem Prod.fst hq')
          rw [lookupA_insertA, if_neg hne']
          exact hin q' (List.mem_cons_of_mem _ hq')
      · simp only [Manager.resumeGo, hn]
        exact ih acc hnd.2 (fun q' hq' => hin q' (List.mem_cons_of_mem _ hq')) q hq

theorem resumeGo_mem_or (todo : List (Nat × StreamState)) (acc : Manager)
    (sid : Nat) (s' : StreamState)
    (h : lookupA (Manager.resumeGo todo acc).streams sid = some s') :
    sid ∈ todo.map Prod.fst ∨ lookupA acc.streams sid = some s' := by
  induction todo generalizing acc with
  | nil => right; exact h
  | cons p rest ih =>
    obtain ⟨sid₁, s₁⟩ := p
    rcases hn : s₁.next with o | e
    · rcases o with _ | u
      · simp only [Manager.resumeGo, hn] at h
        rcases ih _ h with hm | hm
        · left; simp [hm]
        · right; exact hm
      · simp only [Manager.resumeGo, hn, Manager.forward] at h
        rcases ih _ h with hm | hm
        · left; simp [hm]
        · have hm' : lookupA (insertA acc.streams sid₁
              { s₁ with timeout := some ⟨RETRY_INTERVAL_MIN⟩ }) sid = some s' := hm
          rw [lookupA_insertA] at hm'
          by_cases hx : sid₁ = sid
          · left; simp [hx]
          · rw [if_neg hx] at hm'
            right; exact hm'
    · simp only [Manager.resumeGo, hn] at h
      rcases ih _ h with hm | hm
      · left; simp [hm]
      · right; exact hm

theorem managerInv_resume (m : Manager) (h : ManagerInv m) :
    ManagerInv m.resume := by
  unfold Manager.resume
  constructor
  · exact resumeGo_keysNodup _ _ h.1
  · intro sid s' hl
    rw [resumeGo_paused]
    rcases hcase : lookupA m.streams sid with _ | s
    · rcases resumeGo_mem_or m.streams _ sid s' hl with hm | hm
      · obtain ⟨v, hv⟩ := keys_lookupA hm
        rw [hcase] at hv
        exact Option.noConfusion hv
      · have hm' : lookupA m.streams sid = some s' := hm
        rw [hcase] at hm'
        exact Option.noConfusion hm'
    · have hmem : (sid, s) ∈ m.streams := lookupA_mem hcase
      have hspec := resumeGo_lookup_mem m.streams { m with paused := false }
        h.1 (fun q hq => mem_lookupA_of_nodup h.1 hq) (sid, s) hmem
      rw [hl] at hspec
      have hs' : s' = armOrKeep s := by
        injection hspec
      have hsok := h.2 sid s hcase
      rw [hs']
      unfold armOrKeep
      rcases hn : s.next with o | e
      · rcases o with _ | u
        · refine ⟨hsok.1, fun _ _ hpn => ?_, hsok.2.2⟩
          obtain ⟨_, hhd⟩ := next_ok hn
          exact absurd (by rwa [List.head?_eq_none_iff] at hhd) hpn
        · refine ⟨fun _ => ?_, fun _ _ _ => rfl, fun t ht => ?_⟩
          · obtain ⟨_, hhd⟩ := next_ok hn
            intro hnil
            rw [hnil] at hhd
            exact Option.noConfusion hhd
          · cases ht
            simp [RETRY_INTERVAL_MIN, RETRY_INTERVAL_MAX]
      · refine ⟨hsok.1, fun _ hEz _ => ?_, hsok.2.2⟩
        rw [next_err hn] at hEz
        exact Option.noConfusion hEz

theorem managerInv_foldl_cleanup (ids : List Nat) (m : Manager)
    (h : ManagerInv m) : ManagerInv (ids.foldl Manager.cleanupStream m) := by
  induction ids generalizing m with
  | nil => exact h
  | cons i rest ih => exact ih _ (managerInv_cleanupStream m i h)

theorem managerInv_cleanup (m : Manager) (fid : Nat) (h : ManagerInv m) :
    ManagerInv (m.cleanup fid) := by
  unfold Manager.cleanup
  rcases hf : lookupA m.frameworkStreams fid with _ | ids
  · exact h
  · exact managerInv_foldl_cleanup ids m h

theorem managerInv_timeoutOp (m : Manager) (sid d : Nat) (expired : Bool)
    (h : ManagerInv m) : ManagerInv (m.timeoutOp sid d expired) := by
  unfold Manager.timeoutOp
  by_cases hpz : m.paused = true
  · rw [if_pos hpz]
    exact h
  · rw [if_neg hpz]
    rcases hl : lookupA m.streams sid with _ | s
    · exact h
    · dsimp only
      by_cases hpn : s.pending ≠ []
      · rw [if_pos hpn]
        rcases hto : s.timeout with _ | t
        · exact h
        · dsimp only
          by_cases hex : expired = true
          · rw [if_pos hex]
            rcases hh : s.pending.head? with _ | u
            · exact h
            · dsimp only [Manager.forward]
              refine managerInv_insert h sid _ rfl rfl ?_
              refine ⟨fun _ => hpn, fun _ _ _ => rfl, fun t' ht' => ?_⟩
              cases ht'
              exact min_le_right _ _
          · rw [if_neg hex]
            exact h
      · rw [if_neg hpn]
        exact h

/-- The updates carried by the `UPDATE` records of a record list, in order. -/
def recordUpdates (rs : List CheckpointRecord) : List Update :=
  rs.filterMap (fun r =>
    match r with
    | .update u => some u
    | .ack _ => none)

theorem replayStep_preserves {s : StreamState} {acc : List Update}
    {r : CheckpointRecord} {s' : StreamState} {acc' : List Update}
    (h : replayStep s acc r = .ok (s', acc')) :
    s'.timeout = s.timeout ∧ s'.error = s.error := by
  cases r with
  | update u =>
    cases h
    exact ⟨rfl, rfl⟩
  | ack y =>
    unfold replayStep at h
    rcases hn : s.next with o | e
    · rw [hn] at h
      rcases o with _ | u
      · exact Try.noConfusion h
      · cases h
        exact ⟨rfl, rfl⟩
    · rw [hn] at h
      exact Try.noConfusion h

theorem replayRecords_preserves {rs : List CheckpointRecord} :
    ∀ {s : StreamState} {acc : List Update} {s' : StreamState}
      {acc' : List Update}, replayRecords s acc rs = .ok (s', acc') →
      s'.timeout = s.timeout ∧ s'.error = s.error := by
  induction rs with
  | nil =>
    intro s acc s' acc' h
    cases h
    exact ⟨rfl, rfl⟩
  | cons r rest ih =>
    intro s acc s' acc' h
    simp only [replayRecords] at h
    rcases hh : replayStep s acc r with ⟨s₁, acc₁⟩ | e
    · rw [hh] at h
      obtain ⟨h1, h2⟩ := ih h
      obtain ⟨h3, h4⟩ := replayStep_preserves hh
      exact ⟨h1.trans h3, h2.trans h4⟩
    · rw [hh] at h
      exact Try.noConfusion h

theorem replayRecords_acc {rs : List CheckpointRecord} :
    ∀ {s : StreamState} {acc : List Update} {s' : StreamState}
      {acc' : List Update}, replayRecords s acc rs = .ok (s', acc') →
      acc' = acc ++ recordUpdates rs := by
  induction rs with
  | nil =>
    intro s acc s' acc' h
    cases h
    simp [recordUpdates]
  | cons r rest ih =>
    intro s acc s' acc' h
    simp only [replayRecords] at h
    rcases hh : replayStep s acc r with ⟨s₁, acc₁⟩ | e
    · rw [hh] at h
      have hstep : acc₁ = acc ++ recordUpdates [r] := by
        cases r with
        | update u =>
          cases hh
          simp [recordUpdates]
        | ack y =>
          unfold replayStep at hh
          rcases hn : s.next with o | e'
          · rw [hn] at hh
            rcases o with _ | u
            · exact Try.noConfusion hh
            · cases hh
              simp [recordUpdates]
          · rw [hn] at hh
            exact Try.noConfusion hh
      rw [ih h, hstep]
      cases r <;> simp [recordUpdates]
    · rw [hh] at h
      exact Try.noConfusion h

theorem replayRecords_ok_nil {rs : List CheckpointRecord} {s s' : StreamState}
    (hpend : s.pending = []) (hE : s.error = none)
    (h : replayRecords s [] rs = .ok (s', [])) : rs = [] := by
  cases rs with
  | nil => rfl
  | cons r rest =>
    exfalso
    have hacc := replayRecords_acc h
    cases r with
    | update u => simp [recordUpdates] at hacc
    | ack y =>
      simp [replayRecords, replayStep, StreamState.next, hE, hpend] at h

theorem finishRecover_some {s₁ : StreamState} {upds : List Update}
    {ef : Bool} {input : RecoverInput} {s : StreamState}
    {st : StreamRecoveredState} {b : Bool}
    (h : finishRecover s₁ upds ef input = .ok ⟨some (s, st), b⟩) :
    s = s₁ ∧ st = ⟨upds, ef, s₁.terminated⟩ ∧ b = false ∧ upds ≠ [] := by
  unfold finishRecover at h
  split at h
  · split at h
    · exact Try.noConfusion h
    · simp at h
  · rename_i hne
    injection h with h'
    have hres := congrArg RecoverResult.result h'
    have hb := congrArg RecoverResult.fileRemoved h'
    simp only at hres hb
    injection hres with hres'
    have hs := congrArg Prod.fst hres'
    have hst := congrArg Prod.snd hres'
    simp only at hs hst
    exact ⟨hs.symm, hst.symm, hb.symm, hne⟩

theorem recover_some_facts {sid : Nat} {path : String} {strict : Bool}
    {input : RecoverInput} {s : StreamState} {st : StreamRecoveredState}
    {b : Bool}
    (h : StreamState.recover sid path strict input = .ok ⟨some (s, st), b⟩) :
    s.timeout = none ∧ s.error = none ∧ st.terminated = s.terminated ∧
      st.updates ≠ [] ∧ b = false ∧
      ∃ upds, replayRecords (StreamState.init sid none (some path)) []
          input.records = .ok (s, upds) ∧ st.updates = upds := by
  unfold StreamState.recover at h
  split at h
  · simp at h
  · split at h
    · exact Try.noConfusion h
    · split at h
      · exact Try.noConfusion h
      · rename_i s₁ upds heq
        have hfin : ∃ ef, finishRecover s₁ upds ef input = .ok ⟨some (s, st), b⟩ := by
          split at h
          · exact Try.noConfusion h
          · split at h
            · exact Try.noConfusion h
            · split at h
              · split at h
                · exact Try.noConfusion h
                · exact ⟨true, h⟩
              · exact ⟨false, h⟩
        obtain ⟨ef, hf⟩ := hfin
        obtain ⟨hs, hst, hb, hne⟩ := finishRecover_some hf
        obtain ⟨hto, hE⟩ := replayRecords_preserves heq
        subst hs
        refine ⟨hto, hE, ?_, ?_, hb, upds, heq, ?_⟩
        · rw [hst]
        · rw [hst]
          exact hne
        · rw [hst]

theorem managerInv_recoverStream (m : Manager) (sid : Nat) (strict : Bool)
    (input : RecoverInput) (h : ManagerInv m) :
    ManagerInv (m.recoverStream sid strict input).2 := by
  unfold Manager.recoverStream
  rcases hrec : StreamState.recover sid (getPath sid) strict input
      with ⟨ropt, rb⟩ | e
  · rcases ropt with _ | ⟨s, st⟩
    · exact h
    · dsimp only
      obtain ⟨hto, hE, _, _, _, _⟩ := recover_some_facts hrec
      by_cases hterm : s.terminated = true
      · rw [if_pos hterm]
        exact h
      · rw [if_neg hterm]
        have hm₁ : ManagerInv
            { m with frameworkStreams :=
                match s.frameworkId with
                | some f => fsInsert m.frameworkStreams f sid
                | none => m.frameworkStreams } :=
          managerInv_congr h rfl rfl
        rcases hn : s.next with o | e'
        · dsimp only
          by_cases hgo : ¬m.paused ∧ o.isSome
          · rw [if_pos hgo]
            rcases o with _ | u
            · exact absurd hgo.2 (by simp)
            · dsimp only [Manager.forward]
              refine managerInv_insert hm₁ sid _ rfl rfl ?_
              refine ⟨fun _ => ?_, fun _ _ _ => rfl, fun t ht => ?_⟩
              · obtain ⟨_, hhd⟩ := next_ok hn
                intro hnil
                rw [hnil] at hhd
                exact Option.noConfusion hhd
              · cases ht
                simp [RETRY_INTERVAL_MIN, RETRY_INTERVAL_MAX]
          · rw [if_neg hgo]
            refine managerInv_insert hm₁ sid s rfl rfl ?_
            refine ⟨fun habs => ?_, fun hpz hEz hpn => ?_, fun t ht => ?_⟩
            · rw [hto] at habs
              simp at habs
            · exfalso
              apply hgo
              have hpz' : m.paused = false := hpz
              refine ⟨by simp [hpz'], ?_⟩
              obtain ⟨_, hhd⟩ := next_ok hn
              rcases hp : s.pending with _ | ⟨u', r'⟩
              · exact absurd hp hpn
              · rw [hp] at hhd
                simp at hhd
                rw [← hhd]
                simp
            · rw [hto] at ht
              exact Option.noConfusion ht
        · exact hm₁
  · exact h

/-- Every reachable manager state satisfies the manager invariant. -/
theorem reachable_managerInv {m : Manager} (h : Reachable m) : ManagerInv m := by
  induction h with
  | empty =>
    refine ⟨by simp [Manager.empty], fun sid s hl => ?_⟩
    simp [Manager.empty, lookupA] at hl
  | update u sid cp env _ ih => exact managerInv_update _ u sid cp env ih
  | ack sid uuid env _ ih => exact managerInv_ack _ sid uuid env ih
  | pause _ ih => exact managerInv_pause _ ih
  | resume _ ih => exact managerInv_resume _ ih
  | cleanup fid _ ih => exact managerInv_cleanup _ fid ih
  | timerFire sid d expired _ ih => exact managerInv_timeoutOp _ sid d expired ih
  | recoverStep sid strict input _ ih =>
      exact managerInv_recoverStream _ sid strict input ih

theorem update_checkpointed (s : StreamState) (u : Update) (w : Bool) :
    (s.update u w).2.checkpointed = s.checkpointed := by
  unfold StreamState.checkpointed
  rw [StreamState.update_path]

theorem manager_update_noop (M : Manager) (u : Update) (sid : Nat) (cp : Bool)
    (env : IOEnv) (s'' : StreamState)
    (hlook : lookupA M.streams sid = some s'')
    (hcp : s''.checkpointed = cp)
    (hpres : u.frameworkId.isSome = s''.frameworkId.isSome)
    (hval : ¬(u.frameworkId.isSome ∧ u.frameworkId ≠ s''.frameworkId))
    (hupd : ∃ r, s''.update u env.writeOk = (r, s'') ∧ r ≠ .ok true) :
    (M.update u sid cp env).2 = M := by
  obtain ⟨r, hr, hrne⟩ := hupd
  unfold Manager.update
  rw [hlook]
  dsimp only
  unfold Manager.updateGo
  rw [if_neg (by simp [hcp]), if_neg (by simp [hpres]), if_neg hval, hr]
  rcases r with b | e
  · cases b
    · dsimp only
      rw [insertA_self M.streams sid s'' hlook]
    · exact absurd rfl hrne
  · dsimp only
    rw [insertA_self M.streams sid s'' hlook]

theorem updateGo_second (m₁ : Manager) (u : Update) (sid : Nat) (cp : Bool)
    (env : IOEnv) (s : StreamState) (hs : lookupA m₁.streams sid = some s) :
    ((m₁.updateGo u sid cp env s).2.update u sid cp env).2 =
      (m₁.updateGo u sid cp env s).2 := by
  by_cases h1 : s.checkpointed ≠ cp
  · have hfirst : (m₁.updateGo u sid cp env s).2 = m₁ := by
      unfold Manager.updateGo
      rw [if_pos h1]
    rw [hfirst]
    unfold Manager.update
    rw [hs]
    dsimp only
    unfold Manager.updateGo
    rw [if_pos h1]
  · by_cases h2 : u.frameworkId.isSome ≠ s.frameworkId.isSome
    · have hfirst : (m₁.updateGo u sid cp env s).2 = m₁ := by
        unfold Manager.updateGo
        rw [if_neg h1, if_pos h2]
      rw [hfirst]
      unfold Manager.update
      rw [hs]
      dsimp only
      unfold Manager.updateGo
      rw [if_neg h1, if_pos h2]
    · by_cases h3 : u.frameworkId.isSome ∧ u.frameworkId ≠ s.frameworkId
      · have hfirst : (m₁.updateGo u sid cp env s).2 = m₁ := by
          unfold Manager.updateGo
          rw [if_neg h1, if_neg h2, if_pos h3]
        rw [hfirst]
        unfold Manager.update
        rw [hs]
        dsimp only
        unfold Manager.updateGo
        rw [if_neg h1, if_neg h2, if_pos h3]
      · have hcpeq : s.checkpointed = cp := not_ne_iff.mp h1
        have hval : ∀ f, u.frameworkId = some f → s.frameworkId = some f := by
          intro f hf
          by_contra hne
          exact h3 ⟨by simp [hf], by
            rw [hf]
            intro heqq
            exact hne heqq.symm⟩
        rcases hres : s.update u env.writeOk with ⟨r, s'⟩
        have hfid' : s'.frameworkId = s.frameworkId := by
          have hthis := StreamState.update_fid s u env.writeOk hval
          rw [hres] at hthis
          exact hthis
        have hcp' : s'.checkpointed = cp := by
          have hthis := update_checkpointed s u env.writeOk
          rw [hres] at hthis
          exact (show s'.checkpointed = s.checkpointed from hthis).trans hcpeq
        have hpres' : u.frameworkId.isSome = s'.frameworkId.isSome := by
          rw [hfid']
          exact not_ne_iff.mp h2
        have hval' : ¬(u.frameworkId.isSome ∧ u.frameworkId ≠ s'.frameworkId) := by
          rw [hfid']
          exact h3
        have hsecond := StreamState.update_second s u env.writeOk
        rw [hres] at hsecond
        have hupd' : ∃ r₂, s'.update u env.writeOk = (r₂, s') ∧ r₂ ≠ .ok true := by
          rcases hr2 : s'.update u env.writeOk with ⟨r₂, s₂⟩
          have hA := hsecond.1
          have hB := hsecond.2
          rw [hr2] at hA hB
          have hA' : s₂ = s' := hA
          refine ⟨r₂, ?_, hB⟩
          rw [hA']
        have hlook' : lookupA (insertA m₁.streams sid s') sid = some s' := by
          rw [lookupA_insertA]
          simp
        rcases r with b | e
        · cases b
          · have hfirst : (m₁.updateGo u sid cp env s).2 =
                { m₁ with streams := insertA m₁.streams sid s' } := by
              unfold Manager.updateGo
              rw [if_neg h1, if_neg h2, if_neg h3, hres]
            rw [hfirst]
            exact manager_update_noop _ u sid cp env s' hlook' hcp' hpres'
              hval' hupd'
          · by_cases harm : ¬m₁.paused ∧ s'.pending.length = 1
            · rcases hnx : s'.next with o | e'
              · rcases o with _ | nxt
                · have hfirst : (m₁.updateGo u sid cp env s).2 =
                      { m₁ with streams := insertA m₁.streams sid s' } := by
                    unfold Manager.updateGo
                    rw [if_neg h1, if_neg h2, if_neg h3, hres]
                    dsimp only
                    rw [if_pos harm, hnx]
                  rw [hfirst]
                  exact manager_update_noop _ u sid cp env s' hlook' hcp'
                    hpres' hval' hupd'
                · have hfirst : (m₁.updateGo u sid cp env s).2 =
                      { m₁ with
                        streams := insertA (insertA m₁.streams sid s') sid
                          { s' with timeout := some ⟨RETRY_INTERVAL_MIN⟩ }
                        forwarded := m₁.forwarded ++ [nxt] } := by
                    unfold Manager.updateGo
                    rw [if_neg h1, if_neg h2, if_neg h3, hres]
                    dsimp only [Manager.forward]
                    rw [if_pos harm, hnx]
                  rw [hfirst]
                  refine manager_update_noop _ u sid cp env
                    { s' with timeout := some ⟨RETRY_INTERVAL_MIN⟩ } ?_ hcp'
                    hpres' hval' ?_
                  · show lookupA (insertA (insertA m₁.streams sid s') sid _) sid = _
                    rw [lookupA_insertA]
                    simp
                  · obtain ⟨r₂, hr₂, hrne₂⟩ := hupd'
                    refine ⟨r₂, ?_, hrne₂⟩
                    rw [StreamState.update_oblivious s' u env.writeOk
                      (some ⟨RETRY_INTERVAL_MIN⟩), hr₂]
              · have hfirst : (m₁.updateGo u sid cp env s).2 =
                    { m₁ with streams := insertA m₁.streams sid s' } := by
                  unfold Manager.updateGo
                  rw [if_neg h1, if_neg h2, if_neg h3, hres]
                  dsimp only
                  rw [if_pos harm, hnx]
                rw [hfirst]
                exact manager_update_noop _ u sid cp env s' hlook' hcp' hpres'
                  hval' hupd'
            · have hfirst : (m₁.updateGo u sid cp env s).2 =
                  { m₁ with streams := insertA m₁.streams sid s' } := by
                unfold Manager.updateGo
                rw [if_neg h1, if_neg h2, if_neg h3, hres]
                dsimp only
                rw [if_neg harm]
              rw [hfirst]
              exact manager_update_noop _ u sid cp env s' hlook' hcp' hpres'
                hval' hupd'
        · have hfirst : (m₁.updateGo u sid cp env s).2 =
              { m₁ with streams := insertA m₁.streams sid s' } := by
            unfold Manager.updateGo
            rw [if_neg h1, if_neg h2, if_neg h3, hres]
          rw [hfirst]
          exact manager_update_noop _ u sid cp env s' hlook' hcp' hpres'
            hval' hupd'

theorem manager_update_second (m : Manager) (u : Update) (sid : Nat)
    (cp : Bool) (env : IOEnv) :
    ((m.update u sid cp env).2.update u sid cp env).2 =
      (m.update u sid cp env).2 := by
  rcases hs : lookupA m.streams sid with _ | s
  · rcases hc : Manager.createStream m sid u.frameworkId cp env with ⟨rc, m₁⟩
    rcases rc with _ | e
    · have hshape : ∃ s₀,
          s₀ = StreamState.init sid u.frameworkId
            (if cp then some (getPath sid) else none) ∧
          m₁.streams = insertA m.streams sid s₀ := by
        unfold Manager.createStream at hc
        rcases hcr : StreamState.create sid u.frameworkId
            (if cp then some (getPath sid) else none) env with s₀ | e
        · rw [hcr] at hc
          cases hc
          exact ⟨s₀, create_ok hcr, rfl⟩
        · rw [hcr] at hc
          exact Try.noConfusion (congrArg Prod.fst hc)
      obtain ⟨s₀, hs₀, hm₁s⟩ := hshape
      have hlook : lookupA m₁.streams sid = some s₀ := by
        rw [hm₁s, lookupA_insertA]
        simp
      have hfirst : m.update u sid cp env = m₁.updateGo u sid cp env s₀ := by
        unfold Manager.update
        rw [hs]
        dsimp only
        rw [hc]
        dsimp only
        rw [hlook]
      rw [hfirst]
      exact updateGo_second m₁ u sid cp env s₀ hlook
    · have hfirst : m.update u sid cp env = (.err e, m) := by
        unfold Manager.update
        rw [hs]
        dsimp only
        rw [hc]
      rw [hfirst]
      show (m.update u sid cp env).2 = m
      rw [hfirst]
  · have hfirst : m.update u sid cp env = m.updateGo u sid cp env s := by
      unfold Manager.update
      rw [hs]
    rw [hfirst]
    exact updateGo_second m u sid cp env s hs

theorem manager_update_iterate (m : Manager) (u : Update) (sid : Nat)
    (cp : Bool) (env : IOEnv) (n : Nat) :
    (fun m' => (Manager.update m' u sid cp env).2)^[n + 1] m =
      (fun m' => (Manager.update m' u sid cp env).2) m := by
  induction n with
  | zero => rfl
  | succ k ih =>
    rw [Function.iterate_succ_apply']
    rw [ih]
    exact manager_update_second m u sid cp env

theorem manager_update_dup (m : Manager) (u : Update) (sid : Nat) (cp : Bool)
    (env : IOEnv) (s : StreamState) (x : Nat)
    (hs : lookupA m.streams sid = some s) (hE : s.error = none)
    (hU : u.statusUuid = some x)
    (hdup : x ∈ s.acknowledged ∨ x ∈ s.received)
    (hcp : s.checkpointed = cp)
    (hpres : u.frameworkId.isSome = s.frameworkId.isSome)
    (hval : ¬(u.frameworkId.isSome ∧ u.frameworkId ≠ s.frameworkId)) :
    m.update u sid cp env = (.ok (), m) := by
  unfold Manager.update
  rw [hs]
  dsimp only
  unfold Manager.updateGo
  rw [if_neg (by simp [hcp]), if_neg (by simp [hpres]), if_neg hval,
    StreamState.update_dup s u env.writeOk x hE hU hdup]
  dsimp only
  rw [insertA_self m.streams sid s hs]

theorem toFinset_drop_eq (L : List Nat) (k : Nat) (h : L.Nodup) :
    (L.drop k).toFinset = L.toFinset \ (L.take k).toFinset := by
  have hdis : (L.take k).Disjoint (L.drop k) := by
    have hnd : (L.take k ++ L.drop k).Nodup := by
      rw [List.take_append_drop]
      exact h
    exact ((List.nodup_append).mp hnd).2.2
  ext a
  simp only [List.mem_toFinset, Finset.mem_sdiff]
  constructor
  · intro ha
    refine ⟨?_, fun hat => hdis hat ha⟩
    rw [← List.take_append_drop k L]
    exact List.mem_append_right _ ha
  · rintro ⟨haL, hat⟩
    have : a ∈ L.take k ++ L.drop k := by
      rw [List.take_append_drop]
      exact haL
    rcases List.mem_append.mp this with h1 | h2
    · exact absurd h1 hat
    · exact h2

theorem manager_ack_missing (m : Manager) (sid uuid : Nat) (env : IOEnv)
    (h : lookupA m.streams sid = none) :
    m.acknowledgement sid uuid env =
      (.err ("Cannot find the status update stream " ++ toString sid), m) := by
  unfold Manager.acknowledgement
  rw [h]

theorem cleanupStream_fs (m : Manager) (sid : Nat) (s : StreamState) (fid : Nat)
    (hs : lookupA m.streams sid = some s) (hf : s.frameworkId = some fid) :
    (m.cleanupStream sid).frameworkStreams =
      fsErase m.frameworkStreams fid sid := by
  unfold Manager.cleanupStream
  rw [hs]
  dsimp only
  rw [hf]

theorem fsErase_not_mem (l : List (Nat × List Nat)) (fid sid : Nat) :
    sid ∉ (lookupA (fsErase l fid sid) fid).getD [] := by
  unfold fsErase
  rcases hl : lookupA l fid with _ | ids
  · rw [hl]
    simp
  · dsimp only
    by_cases he : ids.filter (fun x => x ≠ sid) = []
    · rw [if_pos he, lookupA_eraseA, if_pos rfl]
      simp
    · rw [if_neg he, lookupA_insertA, if_pos rfl]
      simp

/-- C1: For every stream and after every sequence of update/acknowledgement
operations, there is an acceptance list `acc` and an acknowledged-prefix
count `k` decomposing the stream (`StreamDecomp`): `acknowledged` is a subset
of `received`, the UUIDs of the updates in `pending` are exactly
`received \ acknowledged`, and `pending` carries them in acceptance order
(the suffix of `acc` after its acknowledged prefix); moreover replaying the
stream checkpoint log (the recovery replay) reproduces `received`,
`acknowledged`, `pending` and `terminated`. -/
theorem claim_C1 (sid : Nat) (fid : Option Nat) (path : Option String)
    (ops : List StreamOp) :
    ∃ acc k,
      StreamDecomp (StreamState.runOps (StreamState.init sid fid path) ops)
          acc k ∧
      (StreamState.runOps (StreamState.init sid fid path) ops).acknowledged ⊆
        (StreamState.runOps (StreamState.init sid fid path) ops).received ∧
      ((StreamState.runOps (StreamState.init sid fid path) ops).pending.map
          Update.uuidD).toFinset =
        (StreamState.runOps (StreamState.init sid fid path) ops).received \
          (StreamState.runOps (StreamState.init sid fid path) ops).acknowledged ∧
      (StreamState.runOps (StreamState.init sid fid path) ops).pending.map
          Update.uuidD =
        (acc.map Update.uuidD).drop k ∧
      (path.isSome = true →
        ReplaysToSelf (StreamState.runOps (StreamState.init sid fid path) ops)) := by
  obtain ⟨acc, k, hd⟩ :=
    streamInv_runOps ops (StreamState.init sid fid path)
      ⟨[], 0, streamDecomp_init sid fid path⟩
  refine ⟨acc, k, hd, streamDecomp_subset hd, ?_, streamDecomp_order hd, ?_⟩
  · obtain ⟨hk, hnd, hp, hr, ha⟩ := hd
    rw [streamDecomp_order ⟨hk, hnd, hp, hr, ha⟩, hr, ha, List.map_take]
    exact toFinset_drop_eq (acc.map Update.uuidD) k hnd
  · intro hcp
    exact replaysToSelf_runOps ops (StreamState.init sid fid path) hcp
      (replaysToSelf_init sid fid path)

/-- C2: For a stream without a sticky error, the stream-level
acknowledgement mutates state only when `pending` is non-empty, the UUID
matches the head of `pending` and the UUID is not already acknowledged; an
empty `pending` is an error with no state change, and an already-acknowledged
or mismatched UUID is a Duplicate (`ok false`) with no state change. -/
theorem claim_C2 (s : StreamState) (x : Nat) (w : Bool)
    (hE : s.error = none) :
    (s.pending = [] →
      s.acknowledgement x w =
        (.err "Unexpected status update acknowledgment for stream", s)) ∧
    (∀ u r, s.pending = u :: r → x ∈ s.acknowledged →
      s.acknowledgement x w = (.ok false, s)) ∧
    (∀ u r, s.pending = u :: r → x ∉ s.acknowledged → x ≠ u.uuidD →
      s.acknowledgement x w = (.ok false, s)) ∧
    ((s.acknowledgement x w).2 ≠ s →
      ∃ u r, s.pending = u :: r ∧ x = u.uuidD ∧ x ∉ s.acknowledged) := by
  refine ⟨fun hp => StreamState.ack_empty s x w hE hp,
    fun u r hp hA => StreamState.ack_dup s x w u r hE hp hA,
    fun u r hp hA hx => StreamState.ack_mismatch s x w u r hE hp hA hx,
    fun hne => ?_⟩
  rcases hp : s.pending with _ | ⟨u, r⟩
  · rw [StreamState.ack_empty s x w hE hp] at hne
    exact absurd rfl hne
  · by_cases hA : x ∈ s.acknowledged
    · rw [StreamState.ack_dup s x w u r hE hp hA] at hne
      exact absurd rfl hne
    · by_cases hx : x = u.uuidD
      · exact ⟨u, r, rfl, hx, hA⟩
      · rw [StreamState.ack_mismatch s x w u r hE hp hA hx] at hne
        exact absurd rfl hne

/-- Witness for C2 at a concrete input: a fresh stream has an empty pending
queue, so an acknowledgement is rejected with no state change. -/
theorem claim_C2_witness :
    (StreamState.init 2 none none).acknowledgement 7 true =
      (.err "Unexpected status update acknowledgment for stream",
        StreamState.init 2 none none) :=
  (claim_C2 (StreamState.init 2 none none) 7 true rfl).1 rfl

/-- A concrete stream that has already received the update with UUID 5:
the duplicate-update example for C3. -/
def sC3 : StreamState :=
  ((StreamState.init 3 none none).update ⟨some 5, none, false⟩ true).2

/-- C3: An update whose status UUID is already in `received` or
`acknowledged` is reported as Duplicate (`ok false`) and changes no stream
state; the manager call returns success without touching the manager (in
particular no additional forward); and running the manager update N+1 times
yields exactly the state of running it once. -/
theorem claim_C3 (s : StreamState) (u : Update) (w : Bool) (x : Nat)
    (m : Manager) (sid : Nat) (cp : Bool) (env : IOEnv) (n : Nat)
    (hE : s.error = none) (hU : u.statusUuid = some x)
    (hdup : x ∈ s.acknowledged ∨ x ∈ s.received) :
    s.update u w = (.ok false, s) ∧
      (lookupA m.streams sid = some s → s.checkpointed = cp →
        u.frameworkId.isSome = s.frameworkId.isSome →
        ¬(u.frameworkId.isSome ∧ u.frameworkId ≠ s.frameworkId) →
        m.update u sid cp env = (.ok (), m)) ∧
      (fun m₂ => (Manager.update m₂ u sid cp env).2)^[n + 1] m =
        (fun m₂ => (Manager.update m₂ u sid cp env).2) m := by
  refine ⟨StreamState.update_dup s u w x hE hU hdup,
    fun h1 h2 h3 h4 =>
      manager_update_dup m u sid cp env s x h1 hE hU hdup h2 h3 h4,
    manager_update_iterate m u sid cp env n⟩

/-- Witness for C3 at a concrete input: re-sending the update with UUID 5 to
a stream that already received it is reported as Duplicate with no state
change. -/
theorem claim_C3_witness :
    sC3.update ⟨some 5, none, false⟩ true = (.ok false, sC3) :=
  (claim_C3 sC3 ⟨some 5, none, false⟩ true 5 Manager.empty 3 false
    ⟨true, false, true, true⟩ 0 (by decide) rfl (by decide)).1

/-- A concrete checkpointed stream with one pending update (UUID 9): the
failed-write example for C4. -/
def sC4 : StreamState :=
  ((StreamState.init 4 none (some "4")).update ⟨some 9, none, false⟩ true).2

/-- C4: When the checkpoint write performed by an update or by an
acknowledgement on a checkpointed stream fails, the operation returns an
error, the in-memory state (`received`, `acknowledged`, `pending`,
`terminated`) is exactly what it was before, only the sticky `error` is set;
every subsequent update, acknowledgement or next on that stream then fails
without mutating state; and the stream stays registered in the manager after
either failing operation (the manager keeps the errored stream under its
stream id). -/
theorem claim_C4 (s : StreamState) (hE : s.error = none)
    (hC : s.checkpointed = true) :
    (∀ (u : Update) (x : Nat), u.statusUuid = some x →
      x ∉ s.acknowledged → x ∉ s.received →
      s.update u false =
        (.err StreamState.writeFailMsg,
          { s with error := some StreamState.writeFailMsg })) ∧
    (∀ (u : Update) (r : List Update), s.pending = u :: r →
      u.uuidD ∉ s.acknowledged →
      s.acknowledgement u.uuidD false =
        (.err StreamState.writeFailMsg,
          { s with error := some StreamState.writeFailMsg })) ∧
    ({ s with error := some StreamState.writeFailMsg }).received = s.received ∧
    ({ s with error := some StreamState.writeFailMsg }).acknowledged =
      s.acknowledged ∧
    ({ s with error := some StreamState.writeFailMsg }).pending = s.pending ∧
    ({ s with error := some StreamState.writeFailMsg }).terminated =
      s.terminated ∧
    (∀ v w₂, ({ s with error := some StreamState.writeFailMsg }).update v w₂ =
      (.err StreamState.writeFailMsg,
        { s with error := some StreamState.writeFailMsg })) ∧
    (∀ y w₂,
      ({ s with error := some StreamState.writeFailMsg }).acknowledgement y w₂ =
        (.err StreamState.writeFailMsg,
          { s with error := some StreamState.writeFailMsg })) ∧
    (({ s with error := some StreamState.writeFailMsg }).next =
      .err StreamState.writeFailMsg) ∧
    (∀ (M : Manager) (sid : Nat) (env : IOEnv) (u : Update)
        (r : List Update), env.writeOk = false →
      lookupA M.streams sid = some s →
      s.pending = u :: r → u.uuidD ∉ s.acknowledged →
      (M.acknowledgement sid u.uuidD env).1.isErr = true ∧
      lookupA (M.acknowledgement sid u.uuidD env).2.streams sid =
        some { s with error := some StreamState.writeFailMsg }) ∧
    (∀ (M : Manager) (sid : Nat) (env : IOEnv) (u : Update) (x : Nat),
      env.writeOk = false →
      lookupA M.streams sid = some s →
      u.statusUuid = some x → x ∉ s.acknowledged → x ∉ s.received →
      u.frameworkId.isSome = s.frameworkId.isSome →
      ¬(u.frameworkId.isSome ∧ u.frameworkId ≠ s.frameworkId) →
      (M.update u sid true env).1.isErr = true ∧
      lookupA (M.update u sid true env).2.streams sid =
        some { s with error := some StreamState.writeFailMsg }) := by
  refine ⟨fun u x hU hA hR =>
      StreamState.update_write_fail s u x hE hU hA hR hC,
    fun u r hp hA => StreamState.ack_write_fail s u r hE hp hA hC,
    rfl, rfl, rfl, rfl,
    fun v w₂ => StreamState.update_sticky _ v w₂ _ rfl,
    fun y w₂ => StreamState.acknowledgement_sticky _ y w₂ _ rfl,
    StreamState.next_sticky _ _ rfl,
    fun M sid env u r hw hM hp hA => ?_,
    fun M sid env u x hw hM hU hA hR hpres hval => ?_⟩
  · unfold Manager.acknowledgement
    rw [hM]
    dsimp only
    rw [hw, StreamState.ack_write_fail s u r hE hp hA hC]
    dsimp only
    refine ⟨rfl, ?_⟩
    rw [lookupA_insertA, if_pos rfl]
  · unfold Manager.update
    rw [hM]
    dsimp only
    unfold Manager.updateGo
    rw [if_neg (show ¬(s.checkpointed ≠ true) from by simp [hC]),
      if_neg (by simp [hpres]), if_neg hval]
    rw [hw, StreamState.update_write_fail s u x hE hU hA hR hC]
    dsimp only
    refine ⟨rfl, ?_⟩
    rw [lookupA_insertA, if_pos rfl]

/-- Witness for C4 at a concrete input: a failed checkpoint write during the
update with UUID 11, and during the acknowledgement of the pending UUID 9,
each return the persistence error and leave the example stream with only its
sticky error set. -/
theorem claim_C4_witness :
    sC4.update ⟨some 11, none, false⟩ false =
      (.err StreamState.writeFailMsg,
        { sC4 with error := some StreamState.writeFailMsg }) ∧
    sC4.acknowledgement (Update.uuidD ⟨some 9, none, false⟩) false =
      (.err StreamState.writeFailMsg,
        { sC4 with error := some StreamState.writeFailMsg }) :=
  ⟨(claim_C4 sC4 (by decide) (by decide)).1 ⟨some 11, none, false⟩ 11 rfl
      (by decide) (by decide),
    (claim_C4 sC4 (by decide) (by decide)).2.1 ⟨some 9, none, false⟩ []
      (by decide) (by decide)⟩

/-- C5: When the manager acknowledgement successfully acknowledges an update
and the stream is thereby terminated, the call returns `false`, removes the
stream from `streams` and, when the stream has a framework id, drops the
stream id from that framework entry of `frameworkStreams`; a subsequent
acknowledgement for the same stream id fails with the unknown-stream error.
When the acknowledged update leaves the stream unterminated, the call
returns `true`. -/
theorem claim_C5 (m : Manager) (sid uuid : Nat) (env : IOEnv)
    (s : StreamState) (hs : lookupA m.streams sid = some s)
    (hok : (s.acknowledgement uuid env.writeOk).1 = .ok true) :
    ((s.acknowledgement uuid env.writeOk).2.terminated = true →
      (m.acknowledgement sid uuid env).1 = .ok false ∧
      lookupA (m.acknowledgement sid uuid env).2.streams sid = none ∧
      (∀ fid, s.frameworkId = some fid →
        sid ∉
          (lookupA (m.acknowledgement sid uuid env).2.frameworkStreams
            fid).getD []) ∧
      (∀ uuid₂ env₂,
        ((m.acknowledgement sid uuid env).2.acknowledgement sid uuid₂
            env₂).1 =
          .err ("Cannot find the status update stream " ++ toString sid))) ∧
    ((s.acknowledgement uuid env.writeOk).2.terminated = false →
      (m.acknowledgement sid uuid env).1 = .ok true) := by
  rcases hack : s.acknowledgement uuid env.writeOk with ⟨r, s₁⟩
  rw [hack] at hok
  have hr : r = .ok true := hok
  subst hr
  have hacc : (s.acknowledgement uuid env.writeOk).1 = .ok true := by
    rw [hack]
  obtain ⟨hE, u, r', hp₀, hx, hA, hp₁, hE₁, ha₁, hr₁, hter₁, hto₁, hfid₁,
    hpa₁, _, _⟩ := StreamState.ack_acc s uuid env.writeOk hacc
  rw [hack] at hfid₁
  have hfid' : s₁.frameworkId = s.frameworkId := hfid₁
  by_cases hterm : s₁.terminated = true
  · have hres : m.acknowledgement sid uuid env =
        (.ok false,
          ({ m with streams :=
              insertA m.streams sid { s₁ with timeout := none } } :
            Manager).cleanupStream sid) := by
      unfold Manager.acknowledgement
      rw [hs]
      dsimp only
      rw [hack]
      dsimp only
      rw [if_pos
        (show ({ s₁ with timeout := none } : StreamState).terminated = true
          from hterm)]
    have hlook2 : lookupA
        ({ m with streams :=
            insertA m.streams sid { s₁ with timeout := none } } :
          Manager).streams sid = some { s₁ with timeout := none } := by
      show lookupA (insertA m.streams sid { s₁ with timeout := none }) sid = _
      rw [lookupA_insertA, if_pos rfl]
    have hnone : lookupA (m.acknowledgement sid uuid env).2.streams sid =
        none := by
      rw [hres]
      dsimp only
      rw [cleanupStream_streams, if_pos rfl]
    refine ⟨fun _ => ⟨by rw [hres], hnone, ?_, ?_⟩, fun h2 => ?_⟩
    · intro fid hfidm
      have hfs :
          (({ m with
                streams :=
                  insertA m.streams sid { s₁ with timeout := none } } :
            Manager).cleanupStream sid).frameworkStreams =
          fsErase m.frameworkStreams fid sid :=
        cleanupStream_fs _ sid { s₁ with timeout := none } fid hlook2
          (by show s₁.frameworkId = some fid
              rw [hfid', hfidm])
      rw [hres]
      dsimp only
      rw [hfs]
      exact fsErase_not_mem m.frameworkStreams fid sid
    · intro uuid₂ env₂
      rw [manager_ack_missing _ sid uuid₂ env₂ hnone]
    · have h2' : s₁.terminated = false := h2
      rw [hterm] at h2'
      exact Bool.noConfusion h2'
  · rw [Bool.not_eq_true] at hterm
    refine ⟨fun h1 => absurd (show s₁.terminated = true from h1)
      (by rw [hterm]; exact fun hh => Bool.noConfusion hh), fun _ => ?_⟩
    unfold Manager.acknowledgement
    rw [hs]
    dsimp only
    rw [hack]
    dsimp only
    rw [if_neg
      (show ¬({ s₁ with timeout := none } : StreamState).terminated = true
        from by simp [hterm])]
    rcases hh : s₁.pending.head? with _ | nxt
    · rfl
    · dsimp only
      by_cases hpz : ¬m.paused
      · rw [if_pos hpz]
      · rw [if_neg hpz]

/-- A concrete manager holding one stream (id 1) whose single pending update
(UUID 5) is terminal: the terminal-acknowledgement example for C5. -/
def mC5 : Manager :=
  (Manager.empty.update ⟨some 5, none, true⟩ 1 false
    ⟨true, false, true, true⟩).2

/-- The stream registered in `mC5` under id 1. -/
def sC5 : StreamState :=
  (lookupA mC5.streams 1).getD (StreamState.init 0 none none)

/-- Witness for C5 at a concrete input: acknowledging the terminal update
with UUID 5 returns `false`, removes stream 1, and a second acknowledgement
fails with the unknown-stream error. -/
theorem claim_C5_witness :
    (mC5.acknowledgement 1 5 ⟨true, false, true, true⟩).1 = .ok false ∧
    lookupA (mC5.acknowledgement 1 5 ⟨true, false, true, true⟩).2.streams 1 =
      none ∧
    (∀ fid, sC5.frameworkId = some fid →
      1 ∉
        (lookupA (mC5.acknowledgement 1 5
            ⟨true, false, true, true⟩).2.frameworkStreams fid).getD []) ∧
    (∀ uuid₂ env₂,
      ((mC5.acknowledgement 1 5
          ⟨true, false, true, true⟩).2.acknowledgement 1 uuid₂ env₂).1 =
        .err ("Cannot find the status update stream " ++ toString 1)) :=
  (claim_C5 mC5 1 5 ⟨true, false, true, true⟩ sC5 (by decide)
    (by decide)).1 (by decide)

theorem finishRecover_none {s : StreamState} {upds : List Update} {ef : Bool}
    {input : RecoverInput} {b : Bool}
    (h : finishRecover s upds ef input = .ok ⟨none, b⟩) :
    upds = [] ∧ input.rmOk = true ∧ b = true := by
  unfold finishRecover at h
  split at h
  · split at h
    · exact Try.noConfusion h
    · rename_i hupds hrm
      injection h with h'
      refine ⟨hupds, by simpa using hrm,
        (congrArg RecoverResult.fileRemoved h').symm⟩
  · rename_i hupds
    injection h with h'
    exact absurd (congrArg RecoverResult.result h') (by simp)

/-- C6: Recovery returns None in exactly two situations: the parent directory
exists but the checkpoint file does not (file not removed), or the replay
completes with no successfully replayed UPDATE record — which forces the
readable record list to be empty, so `pending` and `acknowledged` are both
empty — and then the file is removed before returning None; in every other
successful case the rebuilt stream is returned with a state listing all
replayed updates and the terminated flag. -/
theorem claim_C6 (sid : Nat) (path : String) (strict : Bool)
    (input : RecoverInput) :
    (∀ b : Bool,
      StreamState.recover sid path strict input = .ok ⟨none, b⟩ ↔
        ((input.dirExists = true ∧ input.fileExists = false ∧ b = false) ∨
          (¬(input.dirExists = true ∧ ¬input.fileExists = true) ∧
            input.openOk = true ∧
            (∃ s₁, replayRecords (StreamState.init sid none (some path)) []
                input.records = .ok (s₁, [])) ∧
            input.lseekOk = true ∧ input.truncOk = true ∧
            (strict = true → input.readErr = none) ∧
            input.rmOk = true ∧ b = true))) ∧
    (∀ s₁, replayRecords (StreamState.init sid none (some path)) []
        input.records = .ok (s₁, []) →
      input.records = [] ∧ s₁.pending = [] ∧ s₁.acknowledged = ∅) ∧
    (∀ s st b,
      StreamState.recover sid path strict input = .ok ⟨some (s, st), b⟩ →
        st.updates = recordUpdates input.records ∧ st.updates ≠ [] ∧
        st.terminated = s.terminated ∧ s.error = none ∧ b = false) := by
  refine ⟨fun b => ⟨fun h => ?_, fun h => ?_⟩, fun s₁ h => ?_, fun s st b h => ?_⟩
  · unfold StreamState.recover at h
    by_cases h1 : input.dirExists = true ∧ ¬input.fileExists = true
    · rw [if_pos h1] at h
      have h' := Try.ok.inj h
      left
      exact ⟨h1.1, by simpa using h1.2,
        (congrArg RecoverResult.fileRemoved h').symm⟩
    · rw [if_neg h1] at h
      split at h
      · exact Try.noConfusion h
      · rename_i hopen
        split at h
        · exact Try.noConfusion h
        · rename_i s₂ upds hrep
          split at h
          · exact Try.noConfusion h
          · rename_i hlseek
            split at h
            · exact Try.noConfusion h
            · rename_i htrunc
              split at h
              · rename_i msg hre
                split at h
                · exact Try.noConfusion h
                · rename_i hstr
                  obtain ⟨hupds0, hrm, hb⟩ := finishRecover_none h
                  subst hupds0
                  exact Or.inr ⟨h1, by simpa using hopen, ⟨s₂, hrep⟩,
                    by simpa using hlseek, by simpa using htrunc,
                    fun hst => absurd hst (by simpa using hstr), hrm, hb⟩
              · rename_i hre
                obtain ⟨hupds0, hrm, hb⟩ := finishRecover_none h
                subst hupds0
                exact Or.inr ⟨h1, by simpa using hopen, ⟨s₂, hrep⟩,
                  by simpa using hlseek, by simpa using htrunc,
                  fun _ => hre, hrm, hb⟩
  · rcases h with ⟨hd, hf, hb⟩ | ⟨h1, hopen, ⟨s₂, hrep⟩, hlseek, htrunc,
      hse, hrm, hb⟩
    · subst hb
      unfold StreamState.recover
      rw [if_pos ⟨hd, by simp [hf]⟩]
    · subst hb
      unfold StreamState.recover
      rw [if_neg h1, if_neg (by simp [hopen]), hrep]
      dsimp only
      rw [if_neg (by simp [hlseek]), if_neg (by simp [htrunc])]
      rcases hre : input.readErr with _ | msg
      · dsimp only
        unfold finishRecover
        rw [if_pos rfl, if_neg (by simp [hrm])]
      · dsimp only
        rw [if_neg (fun hst => Option.noConfusion ((hse hst).symm.trans hre))]
        unfold finishRecover
        rw [if_pos rfl, if_neg (by simp [hrm])]
  · have hpend : (StreamState.init sid none (some path)).pending = [] := rfl
    have hEi : (StreamState.init sid none (some path)).error = none := rfl
    have hrecs : input.records = [] := replayRecords_ok_nil hpend hEi h
    rw [hrecs] at h
    simp only [replayRecords, Try.ok.injEq, Prod.mk.injEq] at h
    refine ⟨hrecs, ?_, ?_⟩ <;> rw [← h.1] <;> rfl
  · obtain ⟨hto, hE, hterm, hne, hb, upds, hrep, hupds⟩ :=
      recover_some_facts h
    have hacc : upds = [] ++ recordUpdates input.records :=
      replayRecords_acc hrep
    refine ⟨by rw [hupds, hacc]; simp, hne, hterm, hE, hb⟩

/-- C7 (amended): For a stream id that is already registered, a SchemaError
returned by the manager update (missing status UUID, framework-id mismatch,
or checkpointed-flag mismatch) never mutates state: the resulting manager is
exactly the manager before the call. (The claim as stated is refuted for an
unregistered stream id: see the counterexample, where the first update for a
stream id lacks a status UUID and a fresh stream is still left registered.) -/
theorem claim_C7 (m : Manager) (u : Update) (sid : Nat) (cp : Bool)
    (env : IOEnv) (s : StreamState)
    (hs : lookupA m.streams sid = some s) :
    (s.checkpointed ≠ cp → (m.update u sid cp env).2 = m) ∧
    (u.frameworkId.isSome ≠ s.frameworkId.isSome →
      (m.update u sid cp env).2 = m) ∧
    ((u.frameworkId.isSome ∧ u.frameworkId ≠ s.frameworkId) →
      (m.update u sid cp env).2 = m) ∧
    (u.statusUuid = none → (m.update u sid cp env).2 = m) := by
  have hgo : m.update u sid cp env = m.updateGo u sid cp env s := by
    unfold Manager.update
    rw [hs]
  have hmiss : u.statusUuid = none → ∃ e, s.update u env.writeOk = (.err e, s) := by
    intro hU
    rcases hE : s.error with _ | e
    · exact ⟨_, StreamState.update_missing s u env.writeOk hE hU⟩
    · exact ⟨e, StreamState.update_sticky s u env.writeOk e hE⟩
  refine ⟨fun h1 => ?_, fun h2 => ?_, fun h3 => ?_, fun hU => ?_⟩
  · rw [hgo]
    unfold Manager.updateGo
    rw [if_pos h1]
  · rw [hgo]
    unfold Manager.updateGo
    by_cases h1 : s.checkpointed ≠ cp
    · rw [if_pos h1]
    · rw [if_neg h1, if_pos h2]
  · rw [hgo]
    unfold Manager.updateGo
    by_cases h1 : s.checkpointed ≠ cp
    · rw [if_pos h1]
    · rw [if_neg h1]
      by_cases h2 : u.frameworkId.isSome ≠ s.frameworkId.isSome
      · rw [if_pos h2]
      · rw [if_neg h2, if_pos h3]
  · rw [hgo]
    unfold Manager.updateGo
    by_cases h1 : s.checkpointed ≠ cp
    · rw [if_pos h1]
    · rw [if_neg h1]
      by_cases h2 : u.frameworkId.isSome ≠ s.frameworkId.isSome
      · rw [if_pos h2]
      · rw [if_neg h2]
        by_cases h3 : u.frameworkId.isSome ∧ u.frameworkId ≠ s.frameworkId
        · rw [if_pos h3]
        · rw [if_neg h3]
          obtain ⟨e, he⟩ := hmiss hU
          rw [he]
          dsimp only
          rw [insertA_self m.streams sid s hs]

/-- A concrete manager with stream 1 registered: the schema-error example
for C7. -/
def mC7 : Manager :=
  (Manager.empty.update ⟨some 5, none, false⟩ 1 false
    ⟨true, false, true, true⟩).2

/-- The stream registered in `mC7` under id 1. -/
def sC7 : StreamState :=
  (lookupA mC7.streams 1).getD (StreamState.init 0 none none)

/-- Witness for C7 at a concrete input: a checkpointed-flag mismatch on the
registered stream 1 leaves the manager exactly as it was. -/
theorem claim_C7_witness :
    (mC7.update ⟨some 6, none, false⟩ 1 true ⟨true, false, true, true⟩).2 =
      mC7 :=
  (claim_C7 mC7 ⟨some 6, none, false⟩ 1 true ⟨true, false, true, true⟩ sC7
    (by decide)).1 (by decide)

/-- Counterexample to C7 as stated: when the FIRST update for a stream id
lacks a status UUID, the manager update fails with the missing-UUID
SchemaError and yet a fresh stream is left registered under that id — the
manager state is mutated. -/
theorem claim_C7_counterexample :
    (Manager.empty.update ⟨none, none, false⟩ 1 false
        ⟨true, false, true, true⟩).1 =
      .err "Status update is missing status_uuid" ∧
    (Manager.empty.update ⟨none, none, false⟩ 1 false
        ⟨true, false, true, true⟩).2.streams =
      [(1, StreamState.init 1 none none)] ∧
    Manager.empty.streams = [] := by
  exact ⟨rfl, rfl, rfl⟩

/-- A concrete reachable manager with one stream whose forward timer is
armed: reached by a single manager update from the fresh manager. -/
def mC8 : Manager :=
  (Manager.empty.update ⟨some 5, none, false⟩ 1 false
    ⟨true, false, true, true⟩).2

/-- The stream registered in `mC8` under id 1 (pending non-empty, timer
armed at the minimum retry interval). -/
def sC8 : StreamState :=
  (lookupA mC8.streams 1).getD (StreamState.init 0 none none)

/-- The paused example manager: `mC8` after `pause()`. Its stream keeps its
armed timer although the manager is paused. -/
def mC8p : Manager := mC8.pause

/-- C8 (amended): In every reachable manager state, a registered stream with
an armed `timeout` has a non-empty `pending` queue, and conversely an
unpaused, error-free stream with a non-empty `pending` queue has an armed
`timeout`. (The claim as stated — `timeout` is Some IFF pending is non-empty
AND the manager is unpaused AND the error is unset — is refuted right after
`pause()`: see the counterexample, where a paused reachable manager holds a
stream with an armed timeout.) -/
theorem claim_C8 (m : Manager) (sid : Nat) (s : StreamState)
    (hR : Reachable m) (hl : lookupA m.streams sid = some s) :
    (s.timeout.isSome = true → s.pending ≠ []) ∧
    (m.paused = false → s.error = none → s.pending ≠ [] →
      s.timeout.isSome = true) := by
  have h := (reachable_managerInv hR).2 sid s hl
  exact ⟨h.1, h.2.1⟩

/-- Witness for C8 at a concrete input: the amended invariant holds of the
stream registered in the reachable manager `mC8`. -/
theorem claim_C8_witness :
    (sC8.timeout.isSome = true → sC8.pending ≠ []) ∧
    (mC8.paused = false → sC8.error = none → sC8.pending ≠ [] →
      sC8.timeout.isSome = true) :=
  claim_C8 mC8 1 sC8
    (Reachable.update ⟨some 5, none, false⟩ 1 false
      ⟨true, false, true, true⟩ Reachable.empty) (by decide)

/-- Counterexample to C8 as stated: `mC8p` is reachable (update, then
pause), it is paused, and its stream 1 still has an armed timeout with a
non-empty pending queue and no error — so `timeout.isSome` does NOT hold iff
pending is non-empty and the manager is unpaused and the error is unset. -/
theorem claim_C8_counterexample :
    Reachable mC8p ∧ mC8p.paused = true ∧
    lookupA mC8p.streams 1 = some sC8 ∧
    ¬(sC8.timeout.isSome = true ↔
        (sC8.pending ≠ [] ∧ mC8p.paused = false ∧ sC8.error = none)) := by
  refine ⟨Reachable.pause (Reachable.update ⟨some 5, none, false⟩ 1 false
    ⟨true, false, true, true⟩ Reachable.empty), rfl, by decide, by decide⟩

/-- C9: The retry schedule is bounded exponential backoff. In a reachable
manager: every armed backoff duration is at most the retry cap; a first
accepted update (pending becomes size one, manager unpaused) forwards the
update and arms the timer at the minimum retry interval; a timer expiry that
finds the stream unpaused, present, with a pending head and an armed
deadline forwards the head again and re-arms at min(2 * duration, cap),
which never exceeds the cap; and a successful non-terminal acknowledgement
with a further pending head (manager unpaused) forwards that head and
re-arms at the minimum retry interval. -/
theorem claim_C9 (m : Manager) (hR : Reachable m) :
    (∀ sid s t, lookupA m.streams sid = some s → s.timeout = some t →
      t.duration ≤ RETRY_INTERVAL_MAX) ∧
    (∀ (u : Update) (sid : Nat) (cp : Bool) (env : IOEnv)
        (s s₁ : StreamState),
      m.paused = false →
      lookupA m.streams sid = some s →
      s.checkpointed = cp →
      u.frameworkId.isSome = s.frameworkId.isSome →
      ¬(u.frameworkId.isSome ∧ u.frameworkId ≠ s.frameworkId) →
      s.update u env.writeOk = (.ok true, s₁) →
      s₁.pending.length = 1 →
      (m.update u sid cp env).2.forwarded = m.forwarded ++ [u] ∧
      lookupA (m.update u sid cp env).2.streams sid =
        some { s₁ with timeout := some ⟨RETRY_INTERVAL_MIN⟩ }) ∧
    (∀ (sid d : Nat) (expired : Bool) (s : StreamState) (u : Update),
      m.paused = false →
      lookupA m.streams sid = some s →
      s.pending.head? = some u →
      s.timeout.isSome = true →
      expired = true →
      (m.timeoutOp sid d expired).forwarded = m.forwarded ++ [u] ∧
      lookupA (m.timeoutOp sid d expired).streams sid =
        some { s with timeout := some ⟨min (d * 2) RETRY_INTERVAL_MAX⟩ } ∧
      min (d * 2) RETRY_INTERVAL_MAX ≤ RETRY_INTERVAL_MAX) ∧
    (∀ (sid uuid : Nat) (env : IOEnv) (s s₁ : StreamState) (nxt : Update),
      m.paused = false →
      lookupA m.streams sid = some s →
      s.acknowledgement uuid env.writeOk = (.ok true, s₁) →
      s₁.terminated = false →
      s₁.pending.head? = some nxt →
      (m.acknowledgement sid uuid env).1 = .ok true ∧
      (m.acknowledgement sid uuid env).2.forwarded = m.forwarded ++ [nxt] ∧
      lookupA (m.acknowledgement sid uuid env).2.streams sid =
        some { s₁ with timeout := some ⟨RETRY_INTERVAL_MIN⟩ }) := by
  refine ⟨fun sid s t hl ht => ((reachable_managerInv hR).2 sid s hl).2.2 t ht,
    ?_, ?_, ?_⟩
  · intro u sid cp env s s₁ hpause hs hcp hpres hval hupd hlen
    have hacc : (s.update u env.writeOk).1 = .ok true := by rw [hupd]
    obtain ⟨hE, x, hU, hAx, hRx, hp', hE', hr', ha', hter, hto, hpa, hlog1,
      hlog2⟩ := StreamState.update_acc s u env.writeOk hacc
    rw [hupd] at hp' hE'
    have hp₁ : s₁.pending = s.pending ++ [u] := hp'
    have hE₁ : s₁.error = none := hE'
    have hsp : s.pending = [] := by
      have h0 : s.pending.length = 0 := by
        rw [hp₁] at hlen
        simpa using hlen
      exact List.length_eq_zero.mp h0
    have hp₁u : s₁.pending = [u] := by
      rw [hp₁, hsp]
      rfl
    have hnext : s₁.next = .ok (some u) := by
      unfold StreamState.next
      rw [hE₁]
      dsimp only
      rw [hp₁u]
      rfl
    unfold Manager.update
    rw [hs]
    dsimp only
    unfold Manager.updateGo
    rw [if_neg (by simp [hcp]), if_neg (by simp [hpres]), if_neg hval, hupd]
    dsimp only
    rw [if_pos (show ¬m.paused ∧ s₁.pending.length = 1 from
      ⟨by simp [hpause], hlen⟩)]
    rw [hnext]
    dsimp only [Manager.forward]
    refine ⟨rfl, ?_⟩
    rw [lookupA_insertA, if_pos rfl]
  · intro sid d expired s u hpause hs hh ht hex
    subst hex
    unfold Manager.timeoutOp
    rw [if_neg (by simp [hpause])]
    rw [hs]
    dsimp only
    rw [if_pos (show s.pending ≠ [] from fun hn => by
      rw [hn] at hh
      exact Option.noConfusion hh)]
    rcases hto : s.timeout with _ | t
    · rw [hto] at ht
      exact absurd ht (by simp)
    · dsimp only
      rw [if_pos rfl]
      rw [hh]
      dsimp only [Manager.forward]
      refine ⟨rfl, ?_, min_le_right _ _⟩
      rw [lookupA_insertA, if_pos rfl]
  · intro sid uuid env s s₁ nxt hpause hs hack hterm hh
    unfold Manager.acknowledgement
    rw [hs]
    dsimp only
    rw [hack]
    dsimp only
    rw [if_neg (show ¬({ s₁ with timeout := none } : StreamState).terminated
        = true from by simp [hterm])]
    rw [hh]
    dsimp only
    rw [if_pos (show ¬m.paused from by simp [hpause])]
    dsimp only [Manager.forward]
    refine ⟨rfl, rfl, ?_⟩
    rw [lookupA_insertA, if_pos rfl]

/-- Witness for C9 at a concrete input: the backoff armed for stream 1 of
the reachable manager `mC8` respects the retry cap. -/
theorem claim_C9_witness :
    RetryTimeout.duration ⟨RETRY_INTERVAL_MIN⟩ ≤ RETRY_INTERVAL_MAX :=
  (claim_C9 mC8
    (Reachable.update ⟨some 5, none, false⟩ 1 false
      ⟨true, false, true, true⟩ Reachable.empty)).1 1 sC8
    ⟨RETRY_INTERVAL_MIN⟩ (by decide) (by decide)

/-- C10: When recovery of a checkpointed stream rebuilds a terminated stream
(the replay acknowledged a terminal update), the manager returns the
recovered state to the caller but registers nothing: the resulting manager
is exactly the manager before the call — the stream is in neither `streams`
nor `frameworkStreams` and no forward was issued. -/
theorem claim_C10 (m : Manager) (sid : Nat) (strict : Bool)
    (input : RecoverInput) (s : StreamState) (st : StreamRecoveredState)
    (b : Bool)
    (hrec : StreamState.recover sid (getPath sid) strict input =
      .ok ⟨some (s, st), b⟩)
    (hterm : s.terminated = true) :
    m.recoverStream sid strict input = (.ok (some st), m) ∧
    st.terminated = true ∧
    lookupA (m.recoverStream sid strict input).2.streams sid =
      lookupA m.streams sid ∧
    (m.recoverStream sid strict input).2.frameworkStreams =
      m.frameworkStreams ∧
    (m.recoverStream sid strict input).2.forwarded = m.forwarded := by
  have h1 : m.recoverStream sid strict input = (.ok (some st), m) := by
    unfold Manager.recoverStream
    rw [hrec]
    dsimp only
    rw [if_pos hterm]
  have h2 : (m.recoverStream sid strict input).2 = m :=
    congrArg Prod.snd h1
  obtain ⟨_, _, hstterm, _, _, _⟩ := recover_some_facts hrec
  refine ⟨h1, ?_, ?_, ?_, ?_⟩
  · rw [hstterm, hterm]
  · rw [h2]
  · rw [h2]
  · rw [h2]

/-- The recovery input for the C10 example: a checkpoint file whose records
are one terminal update (UUID 5) followed by its acknowledgement. -/
def inC10 : RecoverInput :=
  { dirExists := true, fileExists := true, openOk := true,
    records := [.update ⟨some 5, none, true⟩, .ack 5],
    readErr := none, lseekOk := true, truncOk := true, rmOk := true }

/-- The stream rebuilt by replaying the C10 example records: terminated,
with UUID 5 received and acknowledged and nothing pending. -/
def sC10 : StreamState :=
  { terminated := true, frameworkId := none, timeout := none, pending := [],
    streamId := 7, path := some (getPath 7), received := {5},
    acknowledged := {5}, error := none, log := [] }

/-- The recovered state handed back for the C10 example. -/
def stC10 : StreamRecoveredState :=
  { updates := [⟨some 5, none, true⟩], error := false, terminated := true }

/-- Witness for C10 at a concrete input: recovering the terminated example
stream returns its recovered state and leaves the fresh manager untouched. -/
theorem claim_C10_witness :
    Manager.empty.recoverStream 7 true inC10 =
      (.ok (some stC10), Manager.empty) :=
  (claim_C10 Manager.empty 7 true inC10 sC10 stC10 false (by decide)
    (by decide)).1
